import Mathlib

/-!
Verification of the trucking-load-matcher core (entity extraction and load
matching) against its natural-language specification.

The Lean definitions below are a shallow embedding of the Python source:

* `src/utils/text_processing.py`   (`TextProcessor.clean_text`, `normalize_units`)
* `src/agents/load_matching_agent.py` (`LoadMatchingAgent`)
* `src/agents/entity_extraction_agent.py` (`_extract_phone_numbers`,
  `_build_entities_object`)
* `src/config.py` (`Config`)
* `src/models/load_model.py`, `src/models/entities_model.py`

Python floats are modelled as exact rationals (`ℚ`); all constants in the
source are short decimals so every comparison in the claims is exact.
Python strings are modelled as Lean `String` / `List Char`; the `\w` and `\s`
character classes of the `re` module are modelled over their ASCII fragment,
which covers every vocabulary word, pattern and test input in the repository.
The external `fuzzywuzzy.fuzz.ratio` scorer (a third-party library, not part
of this repository) is modelled as an explicit parameter `ratio`; where a
claim needs it, the hypothesis `0 ≤ ratio a b ≤ 1` records that
`fuzz.ratio/100.0` always lies in `[0, 1]`.
-/

namespace TruckMatcher

/-! ## Python string primitives -/

/-- Python `\s` (ASCII fragment): space, tab, newline, carriage return,
vertical tab, form feed. -/
def pyIsWs (c : Char) : Bool :=
  c = ' ' || c = '\t' || c = '\n' || c = '\r' || c = '\x0B' || c = '\x0C'

/-- Python `\w` (ASCII fragment): alphanumeric or underscore. -/
def isWordChar (c : Char) : Bool :=
  c.isAlphanum || c = '_'

/-- Python `str.lower()` (ASCII fragment). -/
def pyLower (s : String) : String :=
  ⟨s.data.map Char.toLower⟩

/-- `containsSub pat l` is true iff `pat` occurs as a contiguous sublist of
`l`; this is Python's `pat in l` on strings. -/
def containsSub (pat : List Char) : List Char → Bool
  | [] => pat.isEmpty
  | c :: cs => pat.isPrefixOf (c :: cs) || containsSub pat cs

/-- Python `needle in hay` for strings. -/
def pyContains (needle hay : String) : Bool :=
  containsSub needle.data hay.data

/-- Fuelled worker for Python `str.replace`: replaces each non-overlapping
occurrence of `pat`, scanning left to right.  Structural recursion on the
fuel keeps the definition kernel-reducible; callers pass the text length as
fuel, which always suffices because each step consumes at least one
character. -/
def replaceGo (pat repl : List Char) : Nat → List Char → List Char
  | _, [] => []
  | 0, l => l
  | fuel + 1, c :: cs =>
    if pat.isPrefixOf (c :: cs) then
      repl ++ replaceGo pat repl fuel (cs.drop (pat.length - 1))
    else
      c :: replaceGo pat repl fuel cs

/-- Python `s.replace(pat, repl)` (used in the source only with non-empty
patterns). -/
def strReplace (s pat repl : String) : String :=
  ⟨replaceGo pat.data repl.data s.data.length s.data⟩

/-- Python `str.strip()` on a character list. -/
def pyStripList (l : List Char) : List Char :=
  ((l.dropWhile pyIsWs).reverse.dropWhile pyIsWs).reverse

/-- Python `str.strip()`. -/
def pyStrip (s : String) : String :=
  ⟨pyStripList s.data⟩

/-- Numeric value of a digit list (most significant first). -/
def digitsVal (l : List Char) : Nat :=
  l.foldl (fun a c => a * 10 + (c.toNat - 48)) 0

/-- Python `int(s)` on a stripped string: optional sign followed by at least
one digit.  (Python also tolerates surrounding whitespace and `_` digit
separators; neither occurs after the source's cleaning steps.) -/
def parseInt (s : String) : Option Int :=
  match s.data with
  | '+' :: rest => parseIntCore rest
  | '-' :: rest => (parseIntCore rest).map Neg.neg
  | l => parseIntCore l
where
  parseIntCore (l : List Char) : Option Int :=
    if !l.isEmpty && l.all Char.isDigit then some (digitsVal l) else none

/-- Python `float(s)` on a stripped string: optional sign, then digits with
an optional single decimal point, at least one digit in total.  (Python also
accepts exponents, `inf`/`nan` and `_` separators; none occur in the
source's load-catalogue fields or claims.) -/
def parseFloat (s : String) : Option ℚ :=
  match s.data with
  | '+' :: rest => parseFloatCore rest
  | '-' :: rest => (parseFloatCore rest).map Neg.neg
  | l => parseFloatCore l
where
  parseFloatCore (l : List Char) : Option ℚ :=
    let ip := l.takeWhile Char.isDigit
    let rest := l.dropWhile Char.isDigit
    match rest with
    | [] => if ip.isEmpty then none else some (digitsVal ip : ℚ)
    | '.' :: fp =>
      if fp.all Char.isDigit && (!ip.isEmpty || !fp.isEmpty) then
        some ((digitsVal ip : ℚ) + (digitsVal fp : ℚ) / (10 ^ fp.length))
      else none
    | _ => none

/-! ## Configuration (`src/config.py`)

The three thresholds read `os.getenv` with the defaults below; the claims fix
the defaults, so they are embedded as the constants `0.85 / 0.60 / 0.40`. -/

namespace Config

def MATCH_THRESHOLD_HIGH : ℚ := 0.85

def MATCH_THRESHOLD_MEDIUM : ℚ := 0.60

def MATCH_THRESHOLD_LOW : ℚ := 0.40

/-- `Config.MATCH_WEIGHTS` dict, one definition per key. -/
def wTruckType : ℚ := 0.25

def wTonnage : ℚ := 0.20

def wLength : ℚ := 0.15

def wRouteFrom : ℚ := 0.15

def wRouteTo : ℚ := 0.10

def wProduct : ℚ := 0.10

def wAvailability : ℚ := 0.05

end Config

/-! ## Data model (`src/models/`) -/

/-- `LoadStatus` enum. -/
inductive LoadStatus where
  | available
  | assigned
  | completed
  | cancelled
deriving DecidableEq, Repr

/-- `Load` (pydantic model).  `timestamp` is carried as an opaque string; it
is never read by the matcher. -/
structure Load where
  id : String
  booking_office : String
  message_id : String
  timestamp : String
  from_location : String
  to_location : String
  truck_type : String
  truck_length : Option String
  tonnage : Option String
  product : String
  price : Option ℚ
  num_trucks : Int
  eta : String
  status : LoadStatus
  assigned_to : Option String
deriving DecidableEq, Repr

/-- `ExtractedEntities` (pydantic model), base fields.  `truck_type` holds
the string value of the `TruckType` enum member (lowered where the source
lowers it); the enhanced `fo_*` duplicate fields carry the same data and are
modelled once, at extraction-output level (`DeterministicEntities`). -/
structure ExtractedEntities where
  truck_type : Option String
  truck_length : Option Int
  tonnage : Option ℚ
  current_location : Option String
  preferred_routes : List String
  expected_rate : Option ℚ
  rate_flexibility : Option String
  available_immediately : Bool
  availability_constraints : List String
  phone_number : Option String
  special_requirements : List String
  confidence_scores : List (String × ℚ)
deriving DecidableEq, Repr

/-- The seven entries of the `detailed_scores` dict built by
`_calculate_match_score`, as named fields. -/
structure DetailedScores where
  truck_type : ℚ
  tonnage : ℚ
  length : ℚ
  route_from : ℚ
  route_to : ℚ
  product : ℚ
  availability : ℚ
deriving DecidableEq, Repr

/-- `MatchingResult` (pydantic model).  The purely descriptive
`match_reasons` / `mismatch_reasons` string lists are not modelled; per the
spec they are generated from `detailed_scores` and never read back. -/
structure MatchingResult where
  load_id : String
  trucker_requirements_id : String
  overall_score : ℚ
  detailed_scores : DetailedScores
  mandatory_match : Bool
  recommendation : String
  price_gap : Option ℚ
  negotiation_likelihood : ℚ
deriving DecidableEq, Repr

/-! ## Load matching agent (`src/agents/load_matching_agent.py`) -/

/-- `self.tonnage_tolerance` (20%). -/
def tonnage_tolerance : ℚ := 0.2

/-- `self.length_tolerance` (2 feet). -/
def length_tolerance : Int := 2

/-- One iteration of the compatibility loop in `_match_truck_type`, for one
key of `self.truck_compatibility` (`none` means the iteration fell through
to the next key). -/
def compatStep (t l : String) (key : String)
    (compat incompat flex : List String) : Option ℚ :=
  if pyContains key t then
    if compat.any (fun c => pyContains c l) then some 0.9
    else if incompat.any (fun c => pyContains c l) then some 0.1
    else if flex.any (fun c => pyContains c l) then some 0.6
    else none
  else none

/-- The compatibility loop of `_match_truck_type` over the
`truck_compatibility` dict, in insertion order: `open`, then `container`. -/
def compatLookup (t l : String) : Option ℚ :=
  (compatStep t l "open" ["open truck", "open", "goods vehicle"] ["container"] []).orElse
    (fun _ => compatStep t l "container" ["container", "closed"] ["open truck", "open"] [])

/-- `_match_truck_type`.  `none` and the empty string are Python-falsy and
return 0.0.  `ratio` is `fuzz.ratio(·,·)/100.0`. -/
def matchTruckType (ratio : String → String → ℚ)
    (truckerType : Option String) (loadTruckType : String) : ℚ :=
  match truckerType with
  | none => 0
  | some tt =>
    if tt = "" then 0
    else
      let t := pyLower tt
      let l := pyLower loadTruckType
      if pyContains t l || pyContains l t then 1
      else
        let fz := ratio t l
        if 0.8 < fz then fz
        else
          match compatLookup t l with
          | some v => v
          | none => max 0.3 fz

/-- The cleaning applied to the load tonnage string in `_match_tonnage`:
lower-case, drop `mt`, `tons`, `ton`, strip. -/
def cleanTonnage (ls : String) : String :=
  pyStrip (strReplace (strReplace (strReplace (pyLower ls) "mt" "") "tons" "") "ton" "")

/-- `_match_tonnage`.  A trucker tonnage of `0.0` and an empty load string
are Python-falsy (missing information, 0.5); unparsable strings hit the
`except` branch (0.5). -/
def matchTonnage (truckerTonnage : Option ℚ) (loadTonnage : Option String) : ℚ :=
  match truckerTonnage, loadTonnage with
  | some t, some ls =>
    if t = 0 || ls = "" then 0.5
    else
      let clean := cleanTonnage ls
      if clean = "" || clean = "-" then 0.5
      else
        match parseFloat clean with
        | none => 0.5
        | some L =>
          if L ≤ t then
            if t ≤ L * (1 + tonnage_tolerance) then 1 else 0.7
          else
            if 1 - tonnage_tolerance ≤ t / L then 0.6 else 0.1
  | _, _ => 0.5

/-- The cleaning applied to the load length string in `_match_length`:
lower-case, drop `ft`, `feet`, strip, then `int(...)`; `''` and `'-'` fail
like a parse error. -/
def parseLoadLength (ls : String) : Option Int :=
  let clean := pyStrip (strReplace (strReplace (pyLower ls) "ft" "") "feet" "")
  if clean = "" || clean = "-" then none else parseInt clean

/-- `_match_length`.  A trucker length of `0` and an empty load string are
Python-falsy (0.7); unparsable strings hit the `except` branch (0.7). -/
def matchLength (truckerLength : Option Int) (loadLength : Option String) : ℚ :=
  match truckerLength, loadLength with
  | some t, some ls =>
    if t = 0 || ls = "" then 0.7
    else
      match parseLoadLength ls with
      | none => 0.7
      | some L =>
        if t = L then 1
        else if (t - L).natAbs ≤ 2 then 0.9
        else if L < t then
          if t - L ≤ 5 then 0.8 else 0.6
        else
          if L - t ≤ 2 then 0.5 else 0.2
  | _, _ => 0.7

/-- The loop body of `_match_location`: early return 1.0 on substring
containment in either direction, otherwise accumulate the best fuzzy
score. -/
def matchLocationGo (ratio : String → String → ℚ) (loadLoc : String) :
    List String → ℚ → ℚ
  | [], best => best
  | loc :: rest, best =>
    let tc := pyStrip (pyLower loc)
    if pyContains tc loadLoc || pyContains loadLoc tc then 1
    else matchLocationGo ratio loadLoc rest (max best (ratio tc loadLoc))

/-- `_match_location`.  An empty route list and an empty load location are
Python-falsy (0.4). -/
def matchLocation (ratio : String → String → ℚ)
    (truckerLocations : List String) (loadLocation : String) : ℚ :=
  if truckerLocations.isEmpty || loadLocation = "" then 0.4
  else matchLocationGo ratio (pyStrip (pyLower loadLocation)) truckerLocations 0

/-- One iteration of the product-compatibility loop in `_match_product`. -/
def prodStep (t p : String) (key : String)
    (preferred acceptable avoid : List String) : Option ℚ :=
  if pyContains key p then
    if preferred.any (fun c => pyContains c t) then some 1
    else if acceptable.any (fun c => pyContains c t) then some 0.7
    else if avoid.any (fun c => pyContains c t) then some 0.2
    else none
  else none

/-- The product loop of `_match_product` over `product_truck_compatibility`
in insertion order: `ashirwad pipes`, then `cotton boxes`. -/
def prodLookup (t p : String) : Option ℚ :=
  (prodStep t p "ashirwad pipes" ["open", "container"] ["open truck"] []).orElse
    (fun _ => prodStep t p "cotton boxes" ["open", "open truck"] ["container"] [])

/-- `_match_product`.  A missing / empty trucker truck type is Python-falsy
(0.6); an unmatched product falls through to the default 0.6. -/
def matchProduct (truckerTruckType : Option String) (loadProduct : String) : ℚ :=
  match truckerTruckType with
  | none => 0.6
  | some tt =>
    if tt = "" then 0.6
    else
      match prodLookup (pyLower tt) (pyLower loadProduct) with
      | some v => v
      | none => 0.6

/-- `_match_availability`: base 0.8, raised to 1.0 for an immediately
available trucker on a `same day` load, halved once per Sunday-conflicting
constraint, capped at 1.0. -/
def matchAvailability (e : ExtractedEntities) (l : Load) : ℚ :=
  let base : ℚ :=
    if e.available_immediately && pyContains "same day" (pyLower l.eta) then 1 else 0.8
  let s := e.availability_constraints.foldl
    (fun sc c =>
      if pyContains "sunday" c && pyContains "sunday" (pyLower l.eta) then sc * 0.5 else sc)
    base
  min 1 s

/-- `_get_recommendation`.  The source signature also receives the entity
record and the load, but reads neither. -/
def getRecommendation (s : ℚ) : String :=
  if Config.MATCH_THRESHOLD_HIGH ≤ s then "auto_approve"
  else if Config.MATCH_THRESHOLD_MEDIUM ≤ s then "human_review"
  else if Config.MATCH_THRESHOLD_LOW ≤ s then "create_lead"
  else "reject"

/-- The weighted overall score of `_calculate_match_score`. -/
def overallScore (ratio : String → String → ℚ) (e : ExtractedEntities) (l : Load) : ℚ :=
  matchTruckType ratio e.truck_type l.truck_type * Config.wTruckType +
  matchTonnage e.tonnage l.tonnage * Config.wTonnage +
  matchLength e.truck_length l.truck_length * Config.wLength +
  matchLocation ratio e.preferred_routes l.from_location * Config.wRouteFrom +
  matchLocation ratio e.preferred_routes l.to_location * Config.wRouteTo +
  matchProduct e.truck_type l.product * Config.wProduct +
  matchAvailability e l * Config.wAvailability

/-- `_calculate_match_score`.  `trucker_requirements_id` is the literal
`"temp_id"` of the source.  The `price_gap` / `negotiation_likelihood` block
runs only when both prices are present and non-zero (Python truthiness). -/
def calcMatchScore (ratio : String → String → ℚ)
    (e : ExtractedEntities) (l : Load) : MatchingResult :=
  { load_id := l.id
    trucker_requirements_id := "temp_id"
    overall_score := overallScore ratio e l
    detailed_scores :=
      { truck_type := matchTruckType ratio e.truck_type l.truck_type
        tonnage := matchTonnage e.tonnage l.tonnage
        length := matchLength e.truck_length l.truck_length
        route_from := matchLocation ratio e.preferred_routes l.from_location
        route_to := matchLocation ratio e.preferred_routes l.to_location
        product := matchProduct e.truck_type l.product
        availability := matchAvailability e l }
    mandatory_match :=
      decide (0.5 ≤ matchTruckType ratio e.truck_type l.truck_type) &&
      decide (0.5 ≤ matchTonnage e.tonnage l.tonnage)
    recommendation := getRecommendation (overallScore ratio e l)
    price_gap :=
      match e.expected_rate, l.price with
      | some er, some p => if er = 0 || p = 0 then none else some |er - p|
      | _, _ => none
    negotiation_likelihood :=
      match e.expected_rate, l.price with
      | some er, some p =>
        if er = 0 || p = 0 then 0.5
        else
          if |er - p| / p < 0.1 then 0.9
          else if |er - p| / p < 0.2 then 0.7
          else 0.3
      | _, _ => 0.5 }

/-- Stable descending insertion: the new element goes after every element
whose score is at least its own.  This realises the semantics of Python's
stable `list.sort(key=..., reverse=True)` on the matcher's result list. -/
def insertDesc (x : MatchingResult) : List MatchingResult → List MatchingResult
  | [] => [x]
  | y :: ys =>
    if x.overall_score ≤ y.overall_score then y :: insertDesc x ys
    else x :: y :: ys

/-- Stable sort by `overall_score`, descending (ties keep first-inserted
order). -/
def sortDesc (l : List MatchingResult) : List MatchingResult :=
  l.foldl (fun acc x => insertDesc x acc) []

/-- `find_matching_loads`: score every `available` load, keep the
positive-score results in catalogue order, then stable-sort descending by
`overall_score`. -/
def findMatchingLoads (ratio : String → String → ℚ)
    (e : ExtractedEntities) (loads : List Load) : List MatchingResult :=
  sortDesc
    (((loads.filter fun l => decide (l.status = LoadStatus.available)).map
        (calcMatchScore ratio e)).filter
      fun r => decide (0 < r.overall_score))


/-- Rank of the four recommendation tiers, in the order
`auto_approve > human_review > create_lead > reject` given by claim C4. -/
def tierRank (r : String) : Nat :=
  if r = "auto_approve" then 3
  else if r = "human_review" then 2
  else if r = "create_lead" then 1
  else 0

/-! ## Concrete sample inputs used by witnesses and counterexamples -/

/-- A degenerate fuzzy scorer (always 0); trivially within `[0,1]`. -/
def zeroRatio : String → String → ℚ := fun _ _ => 0

/-- A fully populated entity record. -/
def sampleEntities : ExtractedEntities :=
  { truck_type := some "open", truck_length := some 32, tonnage := some 25,
    current_location := none, preferred_routes := ["Tumakuru", "Madurai"],
    expected_rate := some 30000, rate_flexibility := none,
    available_immediately := true, availability_constraints := [],
    phone_number := none, special_requirements := [], confidence_scores := [] }

/-- An entity record with every core field unset, as produced by extraction
on a transcript with no truck/location/price content
(`available_immediately` defaults to `True` in `_build_entities_object`). -/
def entitiesUnset : ExtractedEntities :=
  { truck_type := none, truck_length := none, tonnage := none,
    current_location := none, preferred_routes := [], expected_rate := none,
    rate_flexibility := none, available_immediately := true,
    availability_constraints := [], phone_number := none,
    special_requirements := [], confidence_scores := [] }

/-- A sample available load. -/
def sampleLoad : Load :=
  { id := "LOAD1", booking_office := "Chennai", message_id := "m1",
    timestamp := "2024-01-01", from_location := "Tumakuru", to_location := "Madurai",
    truck_type := "Open", truck_length := some "32", tonnage := some "25",
    product := "cotton boxes", price := some 28000, num_trucks := 1,
    eta := "same day", status := LoadStatus.available, assigned_to := none }

/-- A sample available load whose `eta` does not mention `same day`. -/
def loadPlain : Load :=
  { id := "LOAD2", booking_office := "Madurai", message_id := "m2",
    timestamp := "2024-01-02", from_location := "Chennai", to_location := "Salem",
    truck_type := "Container", truck_length := some "20", tonnage := some "8mt",
    product := "ashirwad pipes", price := some 15000, num_trucks := 1,
    eta := "2 days", status := LoadStatus.available, assigned_to := none }

/-! ## Confidence assembly (`_build_entities_object`, claim C8)

The extraction pipeline hands `_build_entities_object` two dicts: the
deterministic entity dict (8 fixed keys, `None` when not extracted) and the
conversational flag dict (4 fixed boolean keys). -/

/-- The `deterministic` dict of `_extract_deterministic_entities`, in key
insertion order. -/
structure DeterministicEntities where
  fo_from_location : Option String
  fo_to_location : Option String
  fo_truck_type : Option String
  fo_tonnage : Option ℚ
  fo_truck_length : Option Int
  shipper_quoted_price : Option ℚ
  fo_quoted_price : Option ℚ
  fo_shared_number : Option String
deriving DecidableEq, Repr

/-- The `conversational` dict of `_extract_conversational_entities`. -/
structure ConversationalEntities where
  did_ti_pitch_load : Bool
  was_price_discussed : Bool
  did_ti_say_no_load : Bool
  was_number_exchanged : Bool
deriving DecidableEq, Repr

/-- The per-field confidence entries, in dict insertion order: each non-None
deterministic field contributes 0.9 under its key; every conversational flag
contributes 0.8 regardless of its boolean value. -/
def buildConfidenceBase (d : DeterministicEntities) (_c : ConversationalEntities) :
    List (String × ℚ) :=
  (if d.fo_from_location.isSome then [("fo_from_location", 0.9)] else []) ++
  ((if d.fo_to_location.isSome then [("fo_to_location", 0.9)] else []) ++
  ((if d.fo_truck_type.isSome then [("fo_truck_type", 0.9)] else []) ++
  ((if d.fo_tonnage.isSome then [("fo_tonnage", 0.9)] else []) ++
  ((if d.fo_truck_length.isSome then [("fo_truck_length", 0.9)] else []) ++
  ((if d.shipper_quoted_price.isSome then [("shipper_quoted_price", 0.9)] else []) ++
  ((if d.fo_quoted_price.isSome then [("fo_quoted_price", 0.9)] else []) ++
  ((if d.fo_shared_number.isSome then [("fo_shared_number", 0.9)] else []) ++
  [("did_ti_pitch_load", 0.8), ("was_price_discussed", 0.8),
   ("did_ti_say_no_load", 0.8), ("was_number_exchanged", 0.8)])))))))

/-- The `confidence_scores` dict of `_build_entities_object`: the per-field
entries, plus an `overall` entry holding their arithmetic mean whenever at
least one entry exists. -/
def buildConfidenceScores (d : DeterministicEntities) (c : ConversationalEntities) :
    List (String × ℚ) :=
  let base := buildConfidenceBase d c
  if base.isEmpty then base
  else base ++ [("overall", (base.map Prod.snd).sum / (base.length : ℚ))]

/-- Python truthiness filter used for `preferred_routes`
(`[loc for loc in [...] if loc]`): keeps non-None, non-empty strings. -/
def truthyStrings (l : List (Option String)) : List String :=
  l.filterMap fun o =>
    match o with
    | some s => if s = "" then none else some s
    | none => none

/-- `_build_entities_object`.  `special_requirements` holds six debug
strings in the source, never read back; it is not modelled.  The duplicated
enhanced `fo_*` keyword arguments are dropped by the pydantic model (it
declares no such fields). -/
def buildEntitiesObject (d : DeterministicEntities) (c : ConversationalEntities) :
    ExtractedEntities :=
  { truck_type := d.fo_truck_type
    truck_length := d.fo_truck_length
    tonnage := d.fo_tonnage
    current_location := d.fo_from_location
    preferred_routes := truthyStrings [d.fo_from_location, d.fo_to_location]
    expected_rate := d.fo_quoted_price
    rate_flexibility := none
    available_immediately := true
    availability_constraints := []
    phone_number := d.fo_shared_number
    special_requirements := []
    confidence_scores := buildConfidenceScores d c }

/-! ## Phone number extraction (`_extract_phone_numbers`, claim C7) -/

/-- First digit of an Indian mobile number: `[6-9]`. -/
def isPhoneStart (c : Char) : Bool :=
  c = '6' || c = '7' || c = '8' || c = '9'

/-- `[6-9]\d{9}`: a phone core starting at the head of the list. -/
def matchPhoneCore (l : List Char) : Option (List Char) :=
  match l with
  | c :: cs =>
    if isPhoneStart c && decide ((cs.take 9).length = 9) && (cs.take 9).all Char.isDigit then
      some (c :: cs.take 9)
    else none
  | [] => none

/-- `(?:\+91|91)?[6-9]\d{9}` anchored at the current position, with the
regex engine's preference order: `+91` prefix, then `91` prefix, then no
prefix. -/
def matchPhoneAt (l : List Char) : Option (List Char) :=
  match l with
  | '+' :: '9' :: '1' :: rest =>
    match matchPhoneCore rest with
    | some m => some ('+' :: '9' :: '1' :: m)
    | none => none
  | '9' :: '1' :: rest =>
    match matchPhoneCore rest with
    | some m => some ('9' :: '1' :: m)
    | none => matchPhoneCore l
  | _ => matchPhoneCore l

/-- Leftmost match of the standard phone pattern (`findall`, first hit). -/
def scanPhone : List Char → Option (List Char)
  | [] => none
  | c :: cs =>
    match matchPhoneAt (c :: cs) with
    | some m => some m
    | none => scanPhone cs

/-- Take exactly `n` characters satisfying `p`, returning them and the rest. -/
def takeCount (p : Char → Bool) (n : Nat) (l : List Char) :
    Option (List Char × List Char) :=
  if decide ((l.take n).length = n) && (l.take n).all p then some (l.take n, l.drop n)
  else none

/-- Try quantifier repetition counts in the given (greedy) order. -/
def tryFirst {α : Type} (choices : List Nat) (f : Nat → Option α) : Option α :=
  match choices with
  | [] => none
  | n :: ns =>
    match f n with
    | some r => some r
    | none => tryFirst ns f

/-- The fragmented phone pattern
`(\d{2,3})\.{2,3}(\d{3,4})\.{2,3}(\d{2,3})\.{2,3}(\d{2,3})\.{2,3}(\d{2,3})`
anchored at the current position, with greedy quantifiers and backtracking;
returns the five capture groups. -/
def fragMatchAt (l : List Char) : Option (List (List Char)) :=
  tryFirst [3, 2] fun a =>
    (takeCount Char.isDigit a l).bind fun p1 =>
      tryFirst [3, 2] fun d1 =>
        (takeCount (fun c => c = '.') d1 p1.2).bind fun q1 =>
          tryFirst [4, 3] fun b =>
            (takeCount Char.isDigit b q1.2).bind fun p2 =>
              tryFirst [3, 2] fun d2 =>
                (takeCount (fun c => c = '.') d2 p2.2).bind fun q2 =>
                  tryFirst [3, 2] fun e =>
                    (takeCount Char.isDigit e q2.2).bind fun p3 =>
                      tryFirst [3, 2] fun d3 =>
                        (takeCount (fun c => c = '.') d3 p3.2).bind fun q3 =>
                          tryFirst [3, 2] fun f =>
                            (takeCount Char.isDigit f q3.2).bind fun p4 =>
                              tryFirst [3, 2] fun d4 =>
                                (takeCount (fun c => c = '.') d4 p4.2).bind fun q4 =>
                                  tryFirst [3, 2] fun g =>
                                    (takeCount Char.isDigit g q4.2).map fun p5 =>
                                      [p1.1, p2.1, p3.1, p4.1, p5.1]

/-- `re.search` for the fragmented pattern: leftmost starting position. -/
def fragSearch : List Char → Option (List (List Char))
  | [] => none
  | c :: cs =>
    match fragMatchAt (c :: cs) with
    | some gs => some gs
    | none => fragSearch cs

/-- Maximal runs of `\w` characters, each non-word character its own
singleton token; concatenating the tokens restores the input.  The
accumulator carries the current in-progress word run. -/
def wordRunsAux : List Char → List Char → List (List Char)
  | [], acc => if acc.isEmpty then [] else [acc]
  | c :: cs, acc =>
    if isWordChar c then wordRunsAux cs (acc ++ [c])
    else if acc.isEmpty then [c] :: wordRunsAux cs []
    else acc :: ([c] :: wordRunsAux cs [])

def wordRuns (l : List Char) : List (List Char) :=
  wordRunsAux l []

/-- `findall(r'\b\d{2,4}\b', ·)`: exactly the maximal word-character runs
that consist of 2 to 4 digits (a digit run inside a longer word run has no
word boundary, so only whole runs match). -/
def digitTokens (l : List Char) : List (List Char) :=
  (wordRuns l).filter fun t =>
    t.all Char.isDigit && decide (2 ≤ t.length) && decide (t.length ≤ 4)

/-- Third tier of `_extract_phone_numbers`: join the first five 2–4 digit
tokens when at least three exist; accept when the result has at least 10
characters and leads with 6–9 (no truncation to 10 in the source). -/
def phoneTierThree (full_text : String) : Option String :=
  let seqs := digitTokens full_text.data
  if 3 ≤ seqs.length then
    let potential := (seqs.take 5).flatten
    if 10 ≤ potential.length && isPhoneStart (potential.headD ' ') then some ⟨potential⟩
    else none
  else none

/-- `_extract_phone_numbers`: standard pattern first; then the fragmented
pattern, accepted only when the concatenated groups are ≥10 characters
leading with 6–9 (otherwise fall through); then the digit-sequence tier. -/
def extractPhoneNumbers (full_text : String) : Option String :=
  match scanPhone full_text.data with
  | some m => some ⟨m⟩
  | none =>
    match fragSearch full_text.data with
    | some gs =>
      let reconstructed := gs.flatten
      if 10 ≤ reconstructed.length && isPhoneStart (reconstructed.headD ' ') then
        some ⟨reconstructed⟩
      else phoneTierThree full_text
    | none => phoneTierThree full_text

/-! ## Text normalizer (`src/utils/text_processing.py`, claim C6) -/

/-- `re.sub(r'\s+', ' ', ·)`: collapse every maximal whitespace run to a
single space.  The boolean records whether the previous character was part
of a whitespace run. -/
def collapseWs : List Char → Bool → List Char
  | [], _ => []
  | c :: cs, prevWs =>
    if pyIsWs c then
      if prevWs then collapseWs cs true else ' ' :: collapseWs cs true
    else c :: collapseWs cs false

/-- The character class kept by `clean_text`: `[\w\s\-\.]`. -/
def punctKeep (c : Char) : Bool :=
  isWordChar c || pyIsWs c || c = '-' || c = '.'

/-- `re.sub(r'[^\w\s\-\.]', ' ', ·)`: replace every other character by a
space. -/
def punctSub (l : List Char) : List Char :=
  l.map fun c => if punctKeep c then c else ' '

/-- `TextProcessor.clean_text`: collapse whitespace, replace punctuation by
spaces, then strip. -/
def clean_text (s : String) : String :=
  ⟨pyStripList (punctSub (collapseWs s.data false))⟩

/-- The unit substitutions of `normalize_units` at the level of one maximal
word run.  `re.sub(r'\bft\b', 'feet', ·, IGNORECASE)` for an all-word-char
pattern replaces exactly the maximal word runs equal (case-insensitively) to
the pattern — an occurrence inside a longer run has no word boundary — so
the four sequential `re.sub` passes equal one pass of this map over word
runs (no replacement result `feet`/`tons` matches a later pattern). -/
def unitToken (tok : List Char) : List Char :=
  if tok.map Char.toLower = ['f', 't'] then ['f', 'e', 'e', 't']
  else if tok.map Char.toLower = ['f', 'o', 'o', 't'] then ['f', 'e', 'e', 't']
  else if tok.map Char.toLower = ['m', 't'] then ['t', 'o', 'n', 's']
  else if tok.map Char.toLower = ['t', 'o', 'n', 'n', 'e'] then ['t', 'o', 'n', 's']
  else if tok.map Char.toLower = ['t', 'o', 'n', 'n', 'e', 's'] then ['t', 'o', 'n', 's']
  else tok

/-- `TextProcessor.normalize_units`. -/
def normalize_units (s : String) : String :=
  ⟨((wordRuns s.data).map unitToken).flatten⟩

/-- The spec's Text Normalizer (§4.1): whitespace collapsing, punctuation
stripping and unit canonicalization — `normalize_units ∘ clean_text`. -/
def normalize (s : String) : String :=
  normalize_units (clean_text s)

/-- No two adjacent whitespace characters (the shape `re.sub(r'\s+', ' ')`
guarantees). -/
def NoWsRun (l : List Char) : Prop :=
  List.Chain' (fun a b => pyIsWs a = false ∨ pyIsWs b = false) l

/-- A non-empty maximal run of word characters. -/
def IsWordTok (t : List Char) : Prop :=
  t ≠ [] ∧ t.all isWordChar = true

/-- A single non-word character. -/
def IsSepTok (t : List Char) : Prop :=
  ∃ c, t = [c] ∧ isWordChar c = false

/-- Well-formed token list: every token is a word run or a separator, and no
two word runs are adjacent (maximality). -/
def TokensOK (ts : List (List Char)) : Prop :=
  (∀ t ∈ ts, IsWordTok t ∨ IsSepTok t) ∧
    List.Chain' (fun a b => IsWordTok a → IsSepTok b) ts

/-- Modelled from the spec (claim C9 wording), as an ordered decision list:
missing either side → 0.7; unparsable (including empty) load string → 0.7;
exact → 1.0; within ±2ft → 0.9; longer by ≤5ft → 0.8, longer by more → 0.6;
shorter by ≤2ft → 0.5, shorter by more → 0.2. -/
def lengthRuleClaim (tl : Option Int) (ll : Option String) : ℚ :=
  match tl, ll with
  | some t, some ls =>
    match parseLoadLength ls with
    | none => 0.7
    | some L =>
      if t = L then 1
      else if (t - L).natAbs ≤ 2 then 0.9
      else if L < t then
        if t - L ≤ 5 then 0.8 else 0.6
      else
        if L - t ≤ 2 then 0.5 else 0.2
  | _, _ => 0.7

/-- The claim C9 rule amended for Python truthiness: a trucker length equal
to 0 is additionally treated as missing information (0.7). -/
def lengthRuleAmended (tl : Option Int) (ll : Option String) : ℚ :=
  match tl, ll with
  | some t, some ls =>
    if t = 0 then 0.7
    else
      match parseLoadLength ls with
      | none => 0.7
      | some L =>
        if t = L then 1
        else if (t - L).natAbs ≤ 2 then 0.9
        else if L < t then
          if t - L ≤ 5 then 0.8 else 0.6
        else
          if L - t ≤ 2 then 0.5 else 0.2
  | _, _ => 0.7

/-! ## Range lemmas for the per-criterion scores -/

/-- Every value the compatibility loop can return. -/
theorem compatStep_values {t l k : String} {c i f : List String} {v : ℚ}
    (h : compatStep t l k c i f = some v) : v = 0.9 ∨ v = 0.1 ∨ v = 0.6 := by
  unfold compatStep at h
  split_ifs at h <;> simp_all

theorem compatLookup_values {t l : String} {v : ℚ}
    (h : compatLookup t l = some v) : v = 0.9 ∨ v = 0.1 ∨ v = 0.6 := by
  unfold compatLookup at h
  cases h1 : compatStep t l "open" ["open truck", "open", "goods vehicle"] ["container"] [] with
  | some w =>
    rw [h1] at h
    simp only [Option.orElse, Option.some.injEq] at h
    exact h ▸ compatStep_values h1
  | none =>
    rw [h1] at h
    simp only [Option.orElse] at h
    exact compatStep_values h

theorem matchTruckType_bounds {ratio : String → String → ℚ}
    (hr : ∀ a b, 0 ≤ ratio a b ∧ ratio a b ≤ 1) (tt : Option String) (lt : String) :
    0 ≤ matchTruckType ratio tt lt ∧ matchTruckType ratio tt lt ≤ 1 := by
  cases tt with
  | none => simp [matchTruckType]
  | some t =>
    unfold matchTruckType
    by_cases h0 : t = ""
    · simp [h0]
    · obtain ⟨hfa, hfb⟩ := hr (pyLower t) (pyLower lt)
      simp only [h0, if_false]
      by_cases h1 : (pyContains (pyLower t) (pyLower lt) || pyContains (pyLower lt) (pyLower t)) = true
      · simp [h1]
      · simp only [Bool.not_eq_true] at h1
        simp only [h1, Bool.false_eq_true, if_false]
        by_cases h2 : (0.8 : ℚ) < ratio (pyLower t) (pyLower lt)
        · simp only [h2, if_true]
          exact ⟨hfa, hfb⟩
        · simp only [h2, if_false]
          cases h3 : compatLookup (pyLower t) (pyLower lt) with
          | some v =>
            rcases compatLookup_values h3 with h | h | h <;> simp [h] <;> norm_num
          | none =>
            constructor
            · exact le_max_of_le_right hfa
            · exact max_le (by norm_num) hfb

theorem matchTonnage_bounds (tt : Option ℚ) (lt : Option String) :
    0 ≤ matchTonnage tt lt ∧ matchTonnage tt lt ≤ 1 := by
  unfold matchTonnage
  rcases tt with _ | t <;> rcases lt with _ | ls <;> try norm_num
  split_ifs with h1 h2 <;> try norm_num
  cases hP : parseFloat (cleanTonnage ls) with
  | none => norm_num
  | some L =>
    dsimp only
    split_ifs <;> norm_num

theorem matchLength_bounds (tl : Option Int) (ll : Option String) :
    0 ≤ matchLength tl ll ∧ matchLength tl ll ≤ 1 := by
  unfold matchLength
  rcases tl with _ | t <;> rcases ll with _ | ls <;> try norm_num
  split_ifs with h1 <;> try norm_num
  cases hP : parseLoadLength ls with
  | none => norm_num
  | some L =>
    dsimp only
    split_ifs <;> norm_num

theorem matchLocationGo_bounds {ratio : String → String → ℚ}
    (hr : ∀ a b, 0 ≤ ratio a b ∧ ratio a b ≤ 1) (ll : String) (locs : List String)
    (best : ℚ) (hb0 : 0 ≤ best) (hb1 : best ≤ 1) :
    0 ≤ matchLocationGo ratio ll locs best ∧ matchLocationGo ratio ll locs best ≤ 1 := by
  induction locs generalizing best with
  | nil => exact ⟨hb0, hb1⟩
  | cons loc rest ih =>
    unfold matchLocationGo
    dsimp only
    split_ifs with h
    · norm_num
    · obtain ⟨ha, hb⟩ := hr (pyStrip (pyLower loc)) ll
      exact ih _ (le_max_of_le_left hb0) (max_le hb1 hb)

theorem matchLocation_bounds {ratio : String → String → ℚ}
    (hr : ∀ a b, 0 ≤ ratio a b ∧ ratio a b ≤ 1) (locs : List String) (ll : String) :
    0 ≤ matchLocation ratio locs ll ∧ matchLocation ratio locs ll ≤ 1 := by
  unfold matchLocation
  split_ifs with h
  · norm_num
  · exact matchLocationGo_bounds hr _ _ 0 le_rfl (by norm_num)

theorem prodStep_values {t p k : String} {pr ac av : List String} {v : ℚ}
    (h : prodStep t p k pr ac av = some v) : v = 1 ∨ v = 0.7 ∨ v = 0.2 := by
  unfold prodStep at h
  split_ifs at h <;> simp_all

theorem prodLookup_values {t p : String} {v : ℚ}
    (h : prodLookup t p = some v) : v = 1 ∨ v = 0.7 ∨ v = 0.2 := by
  unfold prodLookup at h
  cases h1 : prodStep t p "ashirwad pipes" ["open", "container"] ["open truck"] [] with
  | some w =>
    rw [h1] at h
    simp only [Option.orElse, Option.some.injEq] at h
    exact h ▸ prodStep_values h1
  | none =>
    rw [h1] at h
    simp only [Option.orElse] at h
    exact prodStep_values h

theorem matchProduct_bounds (tt : Option String) (p : String) :
    0 ≤ matchProduct tt p ∧ matchProduct tt p ≤ 1 := by
  unfold matchProduct
  rcases tt with _ | t
  · norm_num
  · dsimp only
    split_ifs with h
    · norm_num
    · cases h1 : prodLookup (pyLower t) (pyLower p) with
      | some v => rcases prodLookup_values h1 with h | h | h <;> simp [h] <;> norm_num
      | none => norm_num

theorem availFold_nonneg (eta : String) (cs : List String) (s : ℚ) (hs : 0 ≤ s) :
    0 ≤ cs.foldl
      (fun sc c => if pyContains "sunday" c && pyContains "sunday" eta then sc * 0.5 else sc) s := by
  induction cs generalizing s with
  | nil => exact hs
  | cons c rest ih =>
    simp only [List.foldl_cons]
    split_ifs with h
    · exact ih _ (by positivity)
    · exact ih _ hs

theorem matchAvailability_bounds (e : ExtractedEntities) (l : Load) :
    0 ≤ matchAvailability e l ∧ matchAvailability e l ≤ 1 := by
  unfold matchAvailability
  constructor
  · apply le_min (by norm_num)
    apply availFold_nonneg
    split_ifs <;> norm_num
  · exact min_le_left _ _

/-- Claim C1.  For every `ExtractedEntities` record `e` and every `Load` `l`
(and any fuzzy scorer with values in `[0,1]`, as `fuzz.ratio/100` is), the
`overall_score` of the `MatchingResult` produced by `_calculate_match_score`
lies between 0 and 1: it is the weighted sum of the seven per-criterion
scores, each in `[0,1]`, with weights summing to `1.0`. -/
theorem overall_score_in_unit_interval (ratio : String → String → ℚ)
    (hr : ∀ a b, 0 ≤ ratio a b ∧ ratio a b ≤ 1) (e : ExtractedEntities) (l : Load) :
    0 ≤ (calcMatchScore ratio e l).overall_score ∧
      (calcMatchScore ratio e l).overall_score ≤ 1 := by
  have hproj : (calcMatchScore ratio e l).overall_score = overallScore ratio e l := rfl
  obtain ⟨h1a, h1b⟩ := matchTruckType_bounds hr e.truck_type l.truck_type
  obtain ⟨h2a, h2b⟩ := matchTonnage_bounds e.tonnage l.tonnage
  obtain ⟨h3a, h3b⟩ := matchLength_bounds e.truck_length l.truck_length
  obtain ⟨h4a, h4b⟩ := matchLocation_bounds hr e.preferred_routes l.from_location
  obtain ⟨h5a, h5b⟩ := matchLocation_bounds hr e.preferred_routes l.to_location
  obtain ⟨h6a, h6b⟩ := matchProduct_bounds e.truck_type l.product
  obtain ⟨h7a, h7b⟩ := matchAvailability_bounds e l
  rw [hproj]
  unfold overallScore Config.wTruckType Config.wTonnage Config.wLength Config.wRouteFrom
    Config.wRouteTo Config.wProduct Config.wAvailability
  constructor <;> nlinarith

/-- Witness for C1 at a concrete record and load. -/
theorem overall_score_in_unit_interval_witness :
    0 ≤ (calcMatchScore zeroRatio sampleEntities sampleLoad).overall_score ∧
      (calcMatchScore zeroRatio sampleEntities sampleLoad).overall_score ≤ 1 :=
  overall_score_in_unit_interval zeroRatio
    (fun _ _ => by unfold zeroRatio; norm_num) sampleEntities sampleLoad

/-! ## Recommendation tiers (claims C4, C10) -/

theorem getRecommendation_rank_mono {a b : ℚ} (h : b ≤ a) :
    tierRank (getRecommendation b) ≤ tierRank (getRecommendation a) := by
  unfold getRecommendation Config.MATCH_THRESHOLD_HIGH Config.MATCH_THRESHOLD_MEDIUM
    Config.MATCH_THRESHOLD_LOW
  split_ifs <;> simp [tierRank] <;> linarith

/-- Claim C4.  Recommendation tiers are monotone in `overall_score`: whenever
one load scores strictly higher than another against the same entity record,
its recommendation tier (ranked `reject < create_lead < human_review <
auto_approve`) is not worse, under the default thresholds 0.85/0.60/0.40. -/
theorem recommendation_tier_monotone (ratio : String → String → ℚ)
    (e : ExtractedEntities) (l₁ l₂ : Load)
    (h : (calcMatchScore ratio e l₂).overall_score <
      (calcMatchScore ratio e l₁).overall_score) :
    tierRank (calcMatchScore ratio e l₂).recommendation ≤
      tierRank (calcMatchScore ratio e l₁).recommendation := by
  have p1 : (calcMatchScore ratio e l₁).recommendation =
      getRecommendation (calcMatchScore ratio e l₁).overall_score := rfl
  have p2 : (calcMatchScore ratio e l₂).recommendation =
      getRecommendation (calcMatchScore ratio e l₂).overall_score := rfl
  rw [p1, p2]
  exact getRecommendation_rank_mono h.le

/-- Claim C10.  A missing trucker truck type scores exactly 0.0 on the
`truck_type` criterion (not a neutral score), and therefore
`mandatory_match` is false for that pair. -/
theorem missing_truck_type_scores_zero (ratio : String → String → ℚ)
    (e : ExtractedEntities) (l : Load) (h : e.truck_type = none) :
    (calcMatchScore ratio e l).detailed_scores.truck_type = 0 ∧
      (calcMatchScore ratio e l).mandatory_match = false := by
  have p1 : (calcMatchScore ratio e l).detailed_scores.truck_type =
      matchTruckType ratio e.truck_type l.truck_type := rfl
  have p2 : (calcMatchScore ratio e l).mandatory_match =
      (decide (0.5 ≤ matchTruckType ratio e.truck_type l.truck_type) &&
        decide (0.5 ≤ matchTonnage e.tonnage l.tonnage)) := rfl
  rw [p1, p2, h]
  have hz : matchTruckType ratio none l.truck_type = 0 := rfl
  rw [hz]
  refine ⟨rfl, ?_⟩
  rw [decide_eq_false (by norm_num : ¬((0.5 : ℚ) ≤ 0))]
  exact Bool.false_and _

/-! ## Stable descending sort: permutation, sortedness, stability -/

theorem insertDesc_perm (x : MatchingResult) (l : List MatchingResult) :
    (insertDesc x l).Perm (x :: l) := by
  induction l with
  | nil => exact List.Perm.refl _
  | cons y ys ih =>
    unfold insertDesc
    split_ifs with h
    · exact (ih.cons y).trans (List.Perm.swap x y ys)
    · exact List.Perm.refl _

theorem foldl_insertDesc_perm (l acc : List MatchingResult) :
    (l.foldl (fun acc x => insertDesc x acc) acc).Perm (acc ++ l) := by
  induction l generalizing acc with
  | nil => simp
  | cons x xs ih =>
    simp only [List.foldl_cons]
    refine (ih (insertDesc x acc)).trans ?_
    refine (((insertDesc_perm x acc).append_right xs).trans ?_)
    exact List.perm_middle.symm

theorem sortDesc_perm (l : List MatchingResult) : (sortDesc l).Perm l := by
  simpa using foldl_insertDesc_perm l []

theorem insertDesc_sorted (x : MatchingResult) (l : List MatchingResult)
    (h : l.Pairwise (fun a b => b.overall_score ≤ a.overall_score)) :
    (insertDesc x l).Pairwise (fun a b => b.overall_score ≤ a.overall_score) := by
  induction l with
  | nil => unfold insertDesc; simp
  | cons y ys ih =>
    rw [List.pairwise_cons] at h
    unfold insertDesc
    split_ifs with hxy
    · rw [List.pairwise_cons]
      refine ⟨fun z hz => ?_, ih h.2⟩
      rcases List.mem_cons.mp ((insertDesc_perm x ys).mem_iff.mp hz) with h1 | h1
      · exact h1 ▸ hxy
      · exact h.1 z h1
    · rw [List.pairwise_cons]
      push_neg at hxy
      refine ⟨fun z hz => ?_, List.pairwise_cons.mpr h⟩
      rcases List.mem_cons.mp hz with h1 | h1
      · exact h1 ▸ hxy.le
      · exact (h.1 z h1).trans hxy.le

theorem sortDesc_sorted (l : List MatchingResult) :
    (sortDesc l).Pairwise (fun a b => b.overall_score ≤ a.overall_score) := by
  have aux : ∀ (xs acc : List MatchingResult),
      acc.Pairwise (fun a b => b.overall_score ≤ a.overall_score) →
      (xs.foldl (fun acc x => insertDesc x acc) acc).Pairwise
        (fun a b => b.overall_score ≤ a.overall_score) := by
    intro xs
    induction xs with
    | nil => exact fun acc h => h
    | cons x rest ih =>
      intro acc h
      simp only [List.foldl_cons]
      exact ih _ (insertDesc_sorted x acc h)
  exact aux l [] (List.Pairwise.nil)

theorem filter_insertDesc (v : ℚ) (x : MatchingResult) (l : List MatchingResult)
    (h : l.Pairwise (fun a b => b.overall_score ≤ a.overall_score)) :
    (insertDesc x l).filter (fun r => decide (r.overall_score = v)) =
      if x.overall_score = v then
        l.filter (fun r => decide (r.overall_score = v)) ++ [x]
      else l.filter (fun r => decide (r.overall_score = v)) := by
  induction l with
  | nil =>
    unfold insertDesc
    by_cases hxv : x.overall_score = v <;> simp [List.filter, hxv]
  | cons y ys ih =>
    rw [List.pairwise_cons] at h
    unfold insertDesc
    by_cases hxy : x.overall_score ≤ y.overall_score
    · rw [if_pos hxy, List.filter_cons, ih h.2]
      by_cases hxv : x.overall_score = v <;> by_cases hyv : y.overall_score = v <;>
        simp [hxv, hyv]
    · rw [if_neg hxy, List.filter_cons]
      push_neg at hxy
      by_cases hxv : x.overall_score = v
      · have hnil : List.filter (fun r => decide (r.overall_score = v)) (y :: ys) = [] := by
          rw [List.filter_eq_nil_iff]
          intro z hz
          have hle : z.overall_score ≤ y.overall_score := by
            rcases List.mem_cons.mp hz with h1 | h1
            · exact h1 ▸ le_rfl
            · exact h.1 z h1
          simp only [decide_eq_true_eq]
          intro hzv
          have hlt := lt_of_le_of_lt hle hxy
          rw [hzv, hxv] at hlt
          exact lt_irrefl v hlt
        simp [hxv, hnil]
      · simp [hxv]

theorem foldl_insertDesc_filter (v : ℚ) (l acc : List MatchingResult)
    (h : acc.Pairwise (fun a b => b.overall_score ≤ a.overall_score)) :
    (l.foldl (fun acc x => insertDesc x acc) acc).filter
        (fun r => decide (r.overall_score = v)) =
      acc.filter (fun r => decide (r.overall_score = v)) ++
        l.filter (fun r => decide (r.overall_score = v)) := by
  induction l generalizing acc with
  | nil => simp
  | cons x xs ih =>
    simp only [List.foldl_cons]
    rw [ih _ (insertDesc_sorted x acc h), filter_insertDesc v x acc h, List.filter_cons]
    by_cases hxv : x.overall_score = v <;> simp [hxv]

/-- Stability of the descending sort: for every score value, the results
carrying that score appear in the same order as in the unsorted input. -/
theorem sortDesc_stable (v : ℚ) (l : List MatchingResult) :
    (sortDesc l).filter (fun r => decide (r.overall_score = v)) =
      l.filter (fun r => decide (r.overall_score = v)) := by
  simpa using foldl_insertDesc_filter v l [] List.Pairwise.nil

/-- Claim C3.  `find_matching_loads` scores exactly the loads whose status is
`available`, drops exactly the zero-score results, and returns the rest
sorted descending by `overall_score` with ties in catalogue order: the
output is a permutation of the positive-score results of the available
loads (in catalogue order), is pairwise descending, and for every score
value the results carrying it keep their catalogue order. -/
theorem find_matching_loads_spec (ratio : String → String → ℚ)
    (e : ExtractedEntities) (loads : List Load) :
    (findMatchingLoads ratio e loads).Perm
        (((loads.filter fun l => decide (l.status = LoadStatus.available)).map
            (calcMatchScore ratio e)).filter fun r => decide (0 < r.overall_score)) ∧
      (findMatchingLoads ratio e loads).Pairwise
        (fun a b => b.overall_score ≤ a.overall_score) ∧
      ∀ v : ℚ,
        (findMatchingLoads ratio e loads).filter (fun r => decide (r.overall_score = v)) =
          (((loads.filter fun l => decide (l.status = LoadStatus.available)).map
              (calcMatchScore ratio e)).filter fun r => decide (0 < r.overall_score)).filter
            (fun r => decide (r.overall_score = v)) := by
  refine ⟨sortDesc_perm _, sortDesc_sorted _, fun v => sortDesc_stable v _⟩

/-- Claim C5.  `mandatory_match` is true iff the truck-type criterion scores
at least 0.5 and the tonnage criterion scores at least 0.5; and
`mandatory_match` never excludes a result from the ranked list: every
available load whose result has positive `overall_score` appears in the
output of `find_matching_loads`, whatever its `mandatory_match` value. -/
theorem mandatory_match_gate_not_filter (ratio : String → String → ℚ)
    (e : ExtractedEntities) (loads : List Load) (l : Load) :
    ((calcMatchScore ratio e l).mandatory_match = true ↔
        0.5 ≤ (calcMatchScore ratio e l).detailed_scores.truck_type ∧
          0.5 ≤ (calcMatchScore ratio e l).detailed_scores.tonnage) ∧
      (l ∈ loads → l.status = LoadStatus.available →
        0 < (calcMatchScore ratio e l).overall_score →
        calcMatchScore ratio e l ∈ findMatchingLoads ratio e loads) := by
  constructor
  · have p1 : (calcMatchScore ratio e l).mandatory_match =
        (decide (0.5 ≤ matchTruckType ratio e.truck_type l.truck_type) &&
          decide (0.5 ≤ matchTonnage e.tonnage l.tonnage)) := rfl
    have p2 : (calcMatchScore ratio e l).detailed_scores.truck_type =
        matchTruckType ratio e.truck_type l.truck_type := rfl
    have p3 : (calcMatchScore ratio e l).detailed_scores.tonnage =
        matchTonnage e.tonnage l.tonnage := rfl
    rw [p1, p2, p3, Bool.and_eq_true, decide_eq_true_eq, decide_eq_true_eq]
  · intro hmem hstatus hpos
    apply (sortDesc_perm _).mem_iff.mpr
    apply List.mem_filter.mpr
    refine ⟨List.mem_map.mpr ⟨l, List.mem_filter.mpr ⟨hmem, by simp [hstatus]⟩, rfl⟩, ?_⟩
    simpa using hpos


/-! ## The all-unset entity record (claims C2, C4, C5) -/

theorem matchTonnage_none (lt : Option String) : matchTonnage none lt = 0.5 := by
  cases lt <;> rfl

theorem matchLength_none (ll : Option String) : matchLength none ll = 0.7 := by
  cases ll <;> rfl

theorem matchLocation_nil (ratio : String → String → ℚ) (ll : String) :
    matchLocation ratio [] ll = 0.4 := by
  unfold matchLocation
  simp

/-- On an entity record with all core fields unset, the overall score is
`0.365 + 0.05 · availability`, i.e. 0.415 on a `same day` load for an
immediately available trucker and 0.405 otherwise — always in the
`create_lead` band `[0.40, 0.60)`. -/
theorem overallScore_unset (ratio : String → String → ℚ)
    (e : ExtractedEntities) (l : Load)
    (h1 : e.truck_type = none) (h2 : e.tonnage = none) (h3 : e.truck_length = none)
    (h4 : e.preferred_routes = []) (h5 : e.availability_constraints = []) :
    overallScore ratio e l =
      if e.available_immediately && pyContains "same day" (pyLower l.eta) then
        (0.415 : ℚ)
      else 0.405 := by
  unfold overallScore
  rw [h1, h2, h3, h4]
  have ht : matchTruckType ratio none l.truck_type = 0 := rfl
  have hpr : matchProduct none l.product = 0.6 := rfl
  have hav : matchAvailability e l =
      if e.available_immediately && pyContains "same day" (pyLower l.eta) then 1
      else 0.8 := by
    unfold matchAvailability
    rw [h5]
    simp only [List.foldl_nil]
    by_cases hb : (e.available_immediately && pyContains "same day" (pyLower l.eta)) = true
    · simp only [hb, if_true]
      norm_num
    · simp only [hb, if_false]
      norm_num
  rw [ht, matchTonnage_none, matchLength_none, matchLocation_nil, matchLocation_nil,
    hpr, hav]
  unfold Config.wTruckType Config.wTonnage Config.wLength Config.wRouteFrom
    Config.wRouteTo Config.wProduct Config.wAvailability
  by_cases hb : (e.available_immediately && pyContains "same day" (pyLower l.eta)) = true
  · simp only [hb, if_true]
    norm_num
  · simp only [hb, if_false]
    norm_num

/-- Counterexample to claim C2 as stated: matching the all-unset entity
record against an available load yields the recommendation `create_lead`
(overall score 0.405 ≥ the 0.40 low threshold), not `reject`. -/
theorem no_content_record_not_rejected :
    (calcMatchScore zeroRatio entitiesUnset loadPlain).recommendation = "create_lead" ∧
      (calcMatchScore zeroRatio entitiesUnset loadPlain).recommendation ≠ "reject" := by
  have hp : (calcMatchScore zeroRatio entitiesUnset loadPlain).recommendation =
      getRecommendation (overallScore zeroRatio entitiesUnset loadPlain) := rfl
  have ho : overallScore zeroRatio entitiesUnset loadPlain = 0.405 := by
    rw [overallScore_unset zeroRatio entitiesUnset loadPlain rfl rfl rfl rfl rfl]
    rw [show (entitiesUnset.available_immediately &&
        pyContains "same day" (pyLower loadPlain.eta)) = false from by decide]
    simp
  rw [hp, ho]
  unfold getRecommendation Config.MATCH_THRESHOLD_HIGH Config.MATCH_THRESHOLD_MEDIUM
    Config.MATCH_THRESHOLD_LOW
  norm_num
  decide

/-- Claim C2 (amended).  For an entity record with all core fields unset —
what extraction produces on a transcript with no truck, location or price
content — every load is scored 0.405 or 0.415 and the recommendation is
`create_lead` for every load, not `reject`. -/
theorem no_content_record_create_lead (ratio : String → String → ℚ)
    (e : ExtractedEntities) (l : Load)
    (h1 : e.truck_type = none) (h2 : e.tonnage = none) (h3 : e.truck_length = none)
    (h4 : e.preferred_routes = []) (h5 : e.availability_constraints = []) :
    (calcMatchScore ratio e l).recommendation = "create_lead" := by
  have hp : (calcMatchScore ratio e l).recommendation =
      getRecommendation (overallScore ratio e l) := rfl
  rw [hp, overallScore_unset ratio e l h1 h2 h3 h4 h5]
  unfold getRecommendation Config.MATCH_THRESHOLD_HIGH Config.MATCH_THRESHOLD_MEDIUM
    Config.MATCH_THRESHOLD_LOW
  by_cases hb : (e.available_immediately && pyContains "same day" (pyLower l.eta)) = true
  · simp only [hb, if_true]
    norm_num
  · simp only [hb, if_false]
    norm_num

/-- Witness for the amended C2 at a concrete record and load. -/
theorem no_content_record_create_lead_witness :
    (calcMatchScore zeroRatio entitiesUnset sampleLoad).recommendation = "create_lead" :=
  no_content_record_create_lead zeroRatio entitiesUnset sampleLoad rfl rfl rfl rfl rfl

/-- Witness for C4: two concrete loads with strictly ordered overall scores
(0.405 < 0.415) and correspondingly ordered tiers. -/
theorem recommendation_tier_monotone_witness :
    (calcMatchScore zeroRatio entitiesUnset loadPlain).overall_score <
      (calcMatchScore zeroRatio entitiesUnset sampleLoad).overall_score ∧
      tierRank (calcMatchScore zeroRatio entitiesUnset loadPlain).recommendation ≤
        tierRank (calcMatchScore zeroRatio entitiesUnset sampleLoad).recommendation := by
  have hlt : (calcMatchScore zeroRatio entitiesUnset loadPlain).overall_score <
      (calcMatchScore zeroRatio entitiesUnset sampleLoad).overall_score := by
    have hp1 : (calcMatchScore zeroRatio entitiesUnset loadPlain).overall_score =
        overallScore zeroRatio entitiesUnset loadPlain := rfl
    have hp2 : (calcMatchScore zeroRatio entitiesUnset sampleLoad).overall_score =
        overallScore zeroRatio entitiesUnset sampleLoad := rfl
    rw [hp1, hp2, overallScore_unset zeroRatio entitiesUnset loadPlain rfl rfl rfl rfl rfl,
      overallScore_unset zeroRatio entitiesUnset sampleLoad rfl rfl rfl rfl rfl]
    rw [show (entitiesUnset.available_immediately &&
        pyContains "same day" (pyLower loadPlain.eta)) = false from by decide]
    rw [show (entitiesUnset.available_immediately &&
        pyContains "same day" (pyLower sampleLoad.eta)) = true from by decide]
    norm_num
  exact ⟨hlt, recommendation_tier_monotone zeroRatio entitiesUnset sampleLoad loadPlain hlt⟩

/-- Witness for C5: a concrete singleton catalogue where the scored result
is listed (its overall score 0.405 is positive). -/
theorem mandatory_match_gate_not_filter_witness :
    ((calcMatchScore zeroRatio entitiesUnset loadPlain).mandatory_match = true ↔
        0.5 ≤ (calcMatchScore zeroRatio entitiesUnset loadPlain).detailed_scores.truck_type ∧
          0.5 ≤ (calcMatchScore zeroRatio entitiesUnset loadPlain).detailed_scores.tonnage) ∧
      calcMatchScore zeroRatio entitiesUnset loadPlain ∈
        findMatchingLoads zeroRatio entitiesUnset [loadPlain] := by
  refine ⟨(mandatory_match_gate_not_filter zeroRatio entitiesUnset [loadPlain] loadPlain).1, ?_⟩
  apply (mandatory_match_gate_not_filter zeroRatio entitiesUnset [loadPlain] loadPlain).2
  · exact List.mem_singleton.mpr rfl
  · rfl
  · have hp : (calcMatchScore zeroRatio entitiesUnset loadPlain).overall_score =
        overallScore zeroRatio entitiesUnset loadPlain := rfl
    rw [hp, overallScore_unset zeroRatio entitiesUnset loadPlain rfl rfl rfl rfl rfl]
    rw [show (entitiesUnset.available_immediately &&
        pyContains "same day" (pyLower loadPlain.eta)) = false from by decide]
    norm_num

/-- Witness for C10 at a concrete record and load. -/
theorem missing_truck_type_scores_zero_witness :
    (calcMatchScore zeroRatio entitiesUnset loadPlain).detailed_scores.truck_type = 0 ∧
      (calcMatchScore zeroRatio entitiesUnset loadPlain).mandatory_match = false :=
  missing_truck_type_scores_zero zeroRatio entitiesUnset loadPlain rfl

/-! ## Claim C9: the length criterion rule -/

/-- Counterexample to claim C9 as stated: for a trucker length of 0 feet
against a load length `"5"`, the code returns the missing-information score
0.7 (Python falsiness of `0`), while the claim's rule prescribes 0.2
(shorter by more than 2ft). -/
theorem length_rule_claim_counterexample :
    matchLength (some 0) (some "5") = 0.7 ∧
      lengthRuleClaim (some 0) (some "5") = 0.2 ∧
      matchLength (some 0) (some "5") ≠ lengthRuleClaim (some 0) (some "5") := by
  refine ⟨rfl, rfl, ?_⟩
  rw [show matchLength (some 0) (some "5") = 0.7 from rfl,
    show lengthRuleClaim (some 0) (some "5") = 0.2 from rfl]
  norm_num

/-- Claim C9 (amended).  `_match_length` follows the claim's ordered decision
list exactly, with one amendment: a trucker length of 0 is treated as
missing information (0.7), like `None`. -/
theorem length_rule_amended_correct (tl : Option Int) (ll : Option String) :
    matchLength tl ll = lengthRuleAmended tl ll := by
  unfold matchLength lengthRuleAmended
  rcases tl with _ | t <;> rcases ll with _ | ls <;> try rfl
  by_cases ht : t = 0
  · simp [ht]
  · by_cases hls : ls = ""
    · subst hls
      simp [ht, show parseLoadLength "" = none from rfl]
    · simp [ht, hls]

/-! ## Claim C8: the confidence assignment policy -/

theorem lookup_skip (k k₂ : String) (v : ℚ) (b : Bool) (rest : List (String × ℚ))
    (h : (k == k₂) = false) :
    ((if b then [(k₂, v)] else []) ++ rest).lookup k = rest.lookup k := by
  cases b <;> simp [List.lookup, h]

theorem lookup_hit (k : String) (v : ℚ) (b : Bool) (rest : List (String × ℚ))
    (h : rest.lookup k = none) :
    ((if b then [(k, v)] else []) ++ rest).lookup k = if b then some v else none := by
  cases b <;> simp [List.lookup, h]

theorem lookup_cons_skip (k k₂ : String) (v : ℚ) (rest : List (String × ℚ))
    (h : (k == k₂) = false) :
    ((k₂, v) :: rest).lookup k = rest.lookup k := by
  simp [List.lookup, h]

theorem lookup_cons_hit (k : String) (v : ℚ) (rest : List (String × ℚ)) :
    ((k, v) :: rest).lookup k = some v := by
  simp [List.lookup]

theorem buildConfidenceBase_ne (d : DeterministicEntities) (c : ConversationalEntities) :
    (buildConfidenceBase d c).isEmpty = false := by
  unfold buildConfidenceBase
  simp [List.isEmpty_iff]

theorem buildConfidenceScores_eq (d : DeterministicEntities) (c : ConversationalEntities) :
    buildConfidenceScores d c =
      buildConfidenceBase d c ++
        [("overall", ((buildConfidenceBase d c).map Prod.snd).sum /
          ((buildConfidenceBase d c).length : ℚ))] := by
  unfold buildConfidenceScores
  simp only [buildConfidenceBase_ne, Bool.false_eq_true, if_false]

/-- Claim C8.  In the assembled `ExtractedEntities`, every populated
deterministic field has a confidence entry of exactly 0.9, every
conversational flag (whatever its value) one of exactly 0.8, and the
`overall` entry is the arithmetic mean of all assigned per-field
confidences (it could only be omitted if no confidence were assigned, which
never happens since the four flags are always present). -/
theorem confidence_assignment_policy (d : DeterministicEntities)
    (c : ConversationalEntities) :
    (buildEntitiesObject d c).confidence_scores = buildConfidenceScores d c ∧
      ((buildConfidenceScores d c).lookup "fo_from_location" =
        if d.fo_from_location.isSome then some 0.9 else none) ∧
      ((buildConfidenceScores d c).lookup "fo_to_location" =
        if d.fo_to_location.isSome then some 0.9 else none) ∧
      ((buildConfidenceScores d c).lookup "fo_truck_type" =
        if d.fo_truck_type.isSome then some 0.9 else none) ∧
      ((buildConfidenceScores d c).lookup "fo_tonnage" =
        if d.fo_tonnage.isSome then some 0.9 else none) ∧
      ((buildConfidenceScores d c).lookup "fo_truck_length" =
        if d.fo_truck_length.isSome then some 0.9 else none) ∧
      ((buildConfidenceScores d c).lookup "shipper_quoted_price" =
        if d.shipper_quoted_price.isSome then some 0.9 else none) ∧
      ((buildConfidenceScores d c).lookup "fo_quoted_price" =
        if d.fo_quoted_price.isSome then some 0.9 else none) ∧
      ((buildConfidenceScores d c).lookup "fo_shared_number" =
        if d.fo_shared_number.isSome then some 0.9 else none) ∧
      (buildConfidenceScores d c).lookup "did_ti_pitch_load" = some 0.8 ∧
      (buildConfidenceScores d c).lookup "was_price_discussed" = some 0.8 ∧
      (buildConfidenceScores d c).lookup "did_ti_say_no_load" = some 0.8 ∧
      (buildConfidenceScores d c).lookup "was_number_exchanged" = some 0.8 ∧
      (buildConfidenceScores d c).lookup "overall" =
        some (((buildConfidenceBase d c).map Prod.snd).sum /
          ((buildConfidenceBase d c).length : ℚ)) := by
  refine ⟨rfl, ?_, ?_, ?_, ?_, ?_, ?_, ?_, ?_, ?_, ?_, ?_, ?_, ?_⟩ <;>
    · rw [buildConfidenceScores_eq]
      unfold buildConfidenceBase
      simp only [List.append_assoc, List.cons_append, List.nil_append]
      simp [lookup_skip, lookup_hit, lookup_cons_skip, lookup_cons_hit, List.lookup]

/-! ## Claim C7: the fragmented phone number scenario -/

/-- Claim C7 evaluation at the failing input.  On the repository's own test
transcript text, the standard and fragmented patterns fail (the fragments
are separated by dots *and a space*, which `\.{2,3}` does not cover), and
the digit-sequence fallback concatenates the first five 2–4 digit tokens
without truncation, returning the 12-digit string `"989867337413"` — not a
10-digit string matching `^[6-9]\d{9}$`. -/
theorem phone_extraction_returns_twelve_digits :
    extractPhoneNumbers "trucker: 98... 9867... 33... 74... 13." = some "989867337413" ∧
      "989867337413".length = 12 ∧
      ¬("989867337413".length = 10) := by
  refine ⟨?_, by decide, by decide⟩
  decide

/-! ## Claim C6: normalizer idempotence -/

/-- Counterexample to claim C6 as stated: `clean_text` replaces the two
punctuation characters of `"a!!b"` by spaces *after* whitespace collapsing,
so `normalize "a!!b" = "a  b"` keeps a double space, and a second
application collapses it: `normalize (normalize "a!!b") = "a b" ≠
normalize "a!!b"`. -/
theorem normalize_not_idempotent_counterexample :
    normalize "a!!b" = "a  b" ∧
      normalize (normalize "a!!b") = "a b" ∧
      normalize (normalize "a!!b") ≠ normalize "a!!b" := by
  refine ⟨by decide, by decide, by decide⟩

theorem word_char_not_ws {c : Char} (hw : isWordChar c = true) : pyIsWs c = false := by
  by_contra hws
  rw [Bool.not_eq_false] at hws
  simp only [pyIsWs, Bool.or_eq_true, decide_eq_true_eq] at hws
  rcases hws with ((((h | h) | h) | h) | h) | h <;> subst h <;> exact absurd hw (by decide)

theorem punctSub_id {l : List Char} (h : ∀ c ∈ l, punctKeep c = true) : punctSub l = l := by
  induction l with
  | nil => rfl
  | cons c cs ih =>
    have hc := h c (List.mem_cons_self c cs)
    have ih2 := ih fun x hx => h x (List.mem_cons_of_mem c hx)
    simp only [punctSub, List.map_cons, hc, if_true] at *
    rw [ih2]

theorem collapseWs_wsSpace (l : List Char) :
    ∀ (b : Bool) (c : Char), c ∈ collapseWs l b → pyIsWs c = true → c = ' ' := by
  induction l with
  | nil => intro b c hc; simp [collapseWs] at hc
  | cons d ds ih =>
    intro b c hc hw
    unfold collapseWs at hc
    split_ifs at hc with hd hb
    · exact ih true c hc hw
    · rcases List.mem_cons.mp hc with h | h
      · exact h
      · exact ih true c h hw
    · rcases List.mem_cons.mp hc with h | h
      · subst h; exact absurd hw hd
      · exact ih false c h hw

theorem collapseWs_keep (l : List Char) (hk : ∀ c ∈ l, punctKeep c = true) :
    ∀ (b : Bool) (c : Char), c ∈ collapseWs l b → punctKeep c = true := by
  induction l with
  | nil => intro b c hc; simp [collapseWs] at hc
  | cons d ds ih =>
    have hk2 : ∀ c ∈ ds, punctKeep c = true := fun x hx => hk x (List.mem_cons_of_mem d hx)
    intro b c hc
    unfold collapseWs at hc
    split_ifs at hc with hd hb
    · exact ih hk2 true c hc
    · rcases List.mem_cons.mp hc with h | h
      · subst h; decide
      · exact ih hk2 true c h
    · rcases List.mem_cons.mp hc with h | h
      · rw [h]; exact hk d (List.mem_cons_self d ds)
      · exact ih hk2 false c h

theorem collapseWs_true_head (l : List Char) :
    ∀ c, (collapseWs l true).head? = some c → pyIsWs c = false := by
  induction l with
  | nil => intro c h; simp [collapseWs] at h
  | cons d ds ih =>
    intro c h
    unfold collapseWs at h
    by_cases hd : pyIsWs d = true
    · rw [if_pos hd, if_pos rfl] at h
      exact ih c h
    · rw [if_neg hd] at h
      simp only [List.head?_cons, Option.some.injEq] at h
      subst h
      simp only [Bool.not_eq_true] at hd
      exact hd

theorem collapseWs_chain (l : List Char) : ∀ b, NoWsRun (collapseWs l b) := by
  induction l with
  | nil => intro b; simp [collapseWs, NoWsRun]
  | cons d ds ih =>
    intro b
    unfold collapseWs NoWsRun
    split_ifs with hd hb
    · exact ih true
    · rw [List.chain'_cons']
      refine ⟨fun y hy => Or.inr ?_, ih true⟩
      exact collapseWs_true_head ds y (Option.mem_def.mp hy)
    · rw [List.chain'_cons']
      refine ⟨fun y hy => Or.inl ?_, ih false⟩
      simp only [Bool.not_eq_true] at hd
      exact hd

theorem collapseWs_fixed (l : List Char) :
    ∀ b, NoWsRun l → (∀ c ∈ l, pyIsWs c = true → c = ' ') →
      (b = true → ∀ c, l.head? = some c → pyIsWs c = false) →
      collapseWs l b = l := by
  induction l with
  | nil => intro b _ _ _; rfl
  | cons d ds ih =>
    intro b hch hws hhd
    have hchd : ∀ y, ds.head? = some y → (pyIsWs d = false ∨ pyIsWs y = false) := by
      intro y hy
      exact (List.chain'_cons'.mp hch).1 y (Option.mem_def.mpr hy)
    have hcht : NoWsRun ds := (List.chain'_cons'.mp hch).2
    have hwst : ∀ c ∈ ds, pyIsWs c = true → c = ' ' := fun c hc => hws c (List.mem_cons_of_mem d hc)
    unfold collapseWs
    by_cases hd : pyIsWs d = true
    · have hb : b = false := by
        cases b with
        | false => rfl
        | true => exact absurd (hhd rfl d rfl) (by simp [hd])
      subst hb
      rw [if_pos hd, if_neg (by simp)]
      have hd' : d = ' ' := hws d (List.mem_cons_self d ds) hd
      rw [ih true hcht hwst ?_]
      · rw [hd']
      · intro _ c hc
        rcases hchd c hc with h | h
        · exact absurd hd (by simp [h])
        · exact h
    · rw [if_neg hd]
      rw [ih false hcht hwst (fun h => nomatch h)]

theorem dropWhile_head_not (p : Char → Bool) (l : List Char) :
    ∀ c, (l.dropWhile p).head? = some c → p c = false := by
  induction l with
  | nil => intro c h; simp at h
  | cons d ds ih =>
    intro c h
    rw [List.dropWhile_cons] at h
    split_ifs at h with hd
    · exact ih c h
    · simp only [List.head?_cons, Option.some.injEq] at h
      subst h
      exact Bool.not_eq_true _ ▸ hd

theorem dropWhile_id_of_head (p : Char → Bool) (l : List Char)
    (h : ∀ c, l.head? = some c → p c = false) : l.dropWhile p = l := by
  cases l with
  | nil => rfl
  | cons d ds =>
    rw [List.dropWhile_cons, if_neg]
    simp [h d rfl]

theorem pyStripList_eq_self (l : List Char)
    (hh : ∀ c, l.head? = some c → pyIsWs c = false)
    (hl : ∀ c, l.getLast? = some c → pyIsWs c = false) : pyStripList l = l := by
  unfold pyStripList
  rw [dropWhile_id_of_head _ _ hh]
  rw [dropWhile_id_of_head _ _ (fun c hc => hl c (by rwa [List.head?_reverse] at hc))]
  exact List.reverse_reverse l

theorem pyStripList_subset {l : List Char} {c : Char} (h : c ∈ pyStripList l) : c ∈ l := by
  unfold pyStripList at h
  rw [List.mem_reverse] at h
  have h1 := (List.dropWhile_suffix (l := (l.dropWhile pyIsWs).reverse) pyIsWs).sublist.subset h
  rw [List.mem_reverse] at h1
  exact (List.dropWhile_suffix (l := l) pyIsWs).sublist.subset h1

theorem pyStripList_head (l : List Char) :
    ∀ c, (pyStripList l).head? = some c → pyIsWs c = false := by
  intro c hc
  unfold pyStripList at hc
  obtain ⟨t, ht⟩ := List.dropWhile_suffix (l := (l.dropWhile pyIsWs).reverse) pyIsWs
  have hm : l.dropWhile pyIsWs =
      ((l.dropWhile pyIsWs).reverse.dropWhile pyIsWs).reverse ++ t.reverse := by
    have h2 := congrArg List.reverse ht
    rw [List.reverse_append, List.reverse_reverse] at h2
    exact h2.symm
  cases hdr : ((l.dropWhile pyIsWs).reverse.dropWhile pyIsWs).reverse with
  | nil => rw [hdr] at hc; simp at hc
  | cons x xs =>
    rw [hdr] at hc
    simp only [List.head?_cons, Option.some.injEq] at hc
    subst hc
    rw [hdr] at hm
    apply dropWhile_head_not pyIsWs l
    rw [hm]
    rfl

theorem pyStripList_last (l : List Char) :
    ∀ c, (pyStripList l).getLast? = some c → pyIsWs c = false := by
  intro c hc
  unfold pyStripList at hc
  rw [List.getLast?_reverse] at hc
  exact dropWhile_head_not pyIsWs _ c hc

theorem pyStripList_chain {l : List Char} (h : NoWsRun l) : NoWsRun (pyStripList l) := by
  unfold NoWsRun at *
  unfold pyStripList
  have h1 : List.Chain' (fun a b => pyIsWs a = false ∨ pyIsWs b = false)
      (l.dropWhile pyIsWs) := by
    obtain ⟨t, ht⟩ := List.dropWhile_suffix (l := l) pyIsWs
    rw [← ht] at h
    exact h.right_of_append
  have h2 : List.Chain' (fun a b => pyIsWs a = false ∨ pyIsWs b = false)
      ((l.dropWhile pyIsWs).reverse) := by
    rw [List.chain'_reverse]
    exact h1.imp fun a b hab => hab.symm
  have h3 : List.Chain' (fun a b => pyIsWs a = false ∨ pyIsWs b = false)
      ((l.dropWhile pyIsWs).reverse.dropWhile pyIsWs) := by
    obtain ⟨t, ht⟩ := List.dropWhile_suffix (l := (l.dropWhile pyIsWs).reverse) pyIsWs
    rw [← ht] at h2
    exact h2.right_of_append
  rw [List.chain'_reverse]
  exact h3.imp fun a b hab => hab.symm

theorem wordRunsAux_flatten (l : List Char) :
    ∀ acc : List Char, (wordRunsAux l acc).flatten = acc ++ l := by
  induction l with
  | nil =>
    intro acc
    unfold wordRunsAux
    by_cases h : acc.isEmpty
    · have : acc = [] := by simpa [List.isEmpty_iff] using h
      simp [h, this]
    · simp [h]
  | cons c cs ih =>
    intro acc
    unfold wordRunsAux
    by_cases hw : isWordChar c = true
    · rw [if_pos hw, ih (acc ++ [c])]
      simp
    · rw [if_neg hw]
      by_cases ha : acc.isEmpty
      · rw [if_pos ha]
        have : acc = [] := by simpa [List.isEmpty_iff] using ha
        simp only [List.flatten_cons]
        rw [ih []]
        simp [this]
      · rw [if_neg ha]
        simp only [List.flatten_cons]
        rw [ih []]
        simp

theorem wordRuns_flatten_eq (l : List Char) : (wordRuns l).flatten = l := by
  unfold wordRuns
  rw [wordRunsAux_flatten]
  rfl

theorem wordRuns_cons_sep {c : Char} (h : isWordChar c = false) (rest : List Char) :
    wordRuns (c :: rest) = [c] :: wordRuns rest := by
  show wordRunsAux (c :: rest) [] = [c] :: wordRunsAux rest []
  rw [wordRunsAux]
  rw [if_neg (by simp [h])]
  simp

theorem wordRunsAux_word_front (w : List Char) :
    ∀ (acc rest : List Char), w.all isWordChar = true →
      wordRunsAux (w ++ rest) acc = wordRunsAux rest (acc ++ w) := by
  induction w with
  | nil => intro acc rest _; simp
  | cons c w' ih =>
    intro acc rest hall
    simp only [List.all_cons, Bool.and_eq_true] at hall
    show wordRunsAux (c :: (w' ++ rest)) acc = _
    rw [wordRunsAux, if_pos hall.1, ih (acc ++ [c]) rest hall.2]
    simp

theorem wordRuns_cons_word (w rest : List Char) (hne : w ≠ [])
    (hall : w.all isWordChar = true)
    (hrest : rest = [] ∨ ∃ c cs, rest = c :: cs ∧ isWordChar c = false) :
    wordRuns (w ++ rest) = w :: wordRuns rest := by
  unfold wordRuns
  rw [wordRunsAux_word_front w [] rest hall]
  simp only [List.nil_append]
  rcases hrest with h | ⟨c, cs, hr, hc⟩
  · subst h
    rw [wordRunsAux, if_neg (by simpa [List.isEmpty_iff] using hne)]
    rfl
  · subst hr
    rw [wordRunsAux, if_neg (by simp [hc]), if_neg (by simpa [List.isEmpty_iff] using hne)]
    exact congrArg (fun x => w :: x) (wordRuns_cons_sep hc cs).symm

theorem wordRunsAux_ok (l : List Char) :
    ∀ acc : List Char, acc.all isWordChar = true →
      (∀ t ∈ wordRunsAux l acc, IsWordTok t ∨ IsSepTok t) ∧
        List.Chain' (fun a b => IsWordTok a → IsSepTok b) (wordRunsAux l acc) := by
  induction l with
  | nil =>
    intro acc hacc
    unfold wordRunsAux
    by_cases ha : acc.isEmpty
    · rw [if_pos ha]
      exact ⟨by simp, by simp⟩
    · rw [if_neg ha]
      refine ⟨?_, by simp⟩
      intro t ht
      rw [List.mem_singleton] at ht
      subst ht
      exact Or.inl ⟨by simpa [List.isEmpty_iff] using ha, hacc⟩
  | cons c cs ih =>
    intro acc hacc
    unfold wordRunsAux
    by_cases hw : isWordChar c = true
    · rw [if_pos hw]
      exact ih (acc ++ [c]) (by simp [List.all_append, hacc, hw])
    · rw [if_neg hw]
      have hsep : IsSepTok [c] := ⟨c, rfl, by simpa using hw⟩
      have ihe := ih [] rfl
      by_cases ha : acc.isEmpty
      · rw [if_pos ha]
        refine ⟨?_, ?_⟩
        · intro t ht
          rcases List.mem_cons.mp ht with h | h
          · subst h; exact Or.inr hsep
          · exact ihe.1 t h
        · rw [List.chain'_cons']
          exact ⟨fun y _ hword => absurd hword.2 (by simpa using hw), ihe.2⟩
      · rw [if_neg ha]
        refine ⟨?_, ?_⟩
        · intro t ht
          rcases List.mem_cons.mp ht with h | h
          · subst h
            exact Or.inl ⟨by simpa [List.isEmpty_iff] using ha, hacc⟩
          · rcases List.mem_cons.mp h with h2 | h2
            · subst h2; exact Or.inr hsep
            · exact ihe.1 t h2
        · rw [List.chain'_cons']
          refine ⟨fun y hy => ?_, ?_⟩
          · simp only [List.head?_cons, Option.mem_def, Option.some.injEq] at hy
            exact fun _ => hy ▸ hsep
          · rw [List.chain'_cons']
            exact ⟨fun y _ hword => absurd hword.2 (by simpa using hw), ihe.2⟩

theorem wordRuns_ok (l : List Char) : TokensOK (wordRuns l) := by
  unfold TokensOK wordRuns
  exact wordRunsAux_ok l [] rfl

theorem wordRuns_flatten_of_ok (ts : List (List Char)) (h : TokensOK ts) :
    wordRuns ts.flatten = ts := by
  induction ts with
  | nil => rfl
  | cons t rest ih =>
    obtain ⟨hmem, hch⟩ := h
    have hrest : TokensOK rest :=
      ⟨fun x hx => hmem x (List.mem_cons_of_mem t hx), (List.chain'_cons'.mp hch).2⟩
    rcases hmem t (List.mem_cons_self t rest) with hword | hsep
    · simp only [List.flatten_cons]
      rw [wordRuns_cons_word t rest.flatten hword.1 hword.2 ?_, ih hrest]
      cases rest with
      | nil => exact Or.inl rfl
      | cons t₂ r2 =>
        have hsep2 : IsSepTok t₂ := (List.chain'_cons'.mp hch).1 t₂ (by simp) hword
        obtain ⟨c, hc, hcw⟩ := hsep2
        right
        exact ⟨c, r2.flatten, by simp [hc], hcw⟩
    · obtain ⟨c, hc, hcw⟩ := hsep
      subst hc
      simp only [List.flatten_cons, List.singleton_append]
      rw [wordRuns_cons_sep hcw, ih hrest]

theorem unitToken_word {t : List Char} (h : IsWordTok t) : IsWordTok (unitToken t) := by
  unfold unitToken
  split_ifs <;> first | exact h | exact ⟨by decide, by decide⟩

theorem unitToken_sep {t : List Char} (h : IsSepTok t) : unitToken t = t := by
  obtain ⟨c, hc, hw⟩ := h
  subst hc
  unfold unitToken
  simp only [List.map_cons, List.map_nil]
  rw [if_neg (by simp), if_neg (by simp), if_neg (by simp), if_neg (by simp),
    if_neg (by simp)]

theorem unitToken_cases (t : List Char) :
    unitToken t = t ∨ unitToken t = ['f', 'e', 'e', 't'] ∨ unitToken t = ['t', 'o', 'n', 's'] := by
  unfold unitToken
  split_ifs <;> simp

theorem unitToken_idem (t : List Char) : unitToken (unitToken t) = unitToken t := by
  rcases unitToken_cases t with h | h | h
  · rw [h]
    exact h
  · rw [h]
    decide
  · rw [h]
    decide

theorem unitToken_map_chain : ∀ ts : List (List Char),
    (∀ t ∈ ts, IsWordTok t ∨ IsSepTok t) →
    List.Chain' (fun a b => IsWordTok a → IsSepTok b) ts →
    List.Chain' (fun a b => IsWordTok a → IsSepTok b) (ts.map unitToken) := by
  intro ts
  induction ts with
  | nil => intro _ _; simp
  | cons t rest ih =>
    intro hmem hch
    simp only [List.map_cons]
    rw [List.chain'_cons']
    obtain ⟨hhead, htail⟩ := List.chain'_cons'.mp hch
    refine ⟨?_, ih (fun x hx => hmem x (List.mem_cons_of_mem t hx)) htail⟩
    intro y hy hword
    cases rest with
    | nil => simp at hy
    | cons t₂ r2 =>
      simp only [List.map_cons, List.head?_cons, Option.mem_def, Option.some.injEq] at hy
      subst hy
      rcases hmem t (List.mem_cons_self t (t₂ :: r2)) with hw | hs
      · have hsep2 : IsSepTok t₂ := hhead t₂ (by simp) hw
        rw [unitToken_sep hsep2]
        exact hsep2
      · rw [unitToken_sep hs] at hword
        obtain ⟨c, hc, hcw⟩ := hs
        subst hc
        exact absurd hword.2 (by simpa using hcw)

theorem unitToken_map_ok {ts : List (List Char)} (h : TokensOK ts) :
    TokensOK (ts.map unitToken) := by
  obtain ⟨hmem, hch⟩ := h
  constructor
  · intro t ht
    rcases List.mem_map.mp ht with ⟨t₀, ht₀, rfl⟩
    rcases hmem t₀ ht₀ with hw | hs
    · exact Or.inl (unitToken_word hw)
    · rw [unitToken_sep hs]
      exact Or.inr hs
  · exact unitToken_map_chain ts hmem hch

theorem normalize_units_idem (s : String) :
    normalize_units (normalize_units s) = normalize_units s := by
  unfold normalize_units
  apply congrArg String.mk
  have h2 : wordRuns (((wordRuns s.data).map unitToken).flatten) =
      (wordRuns s.data).map unitToken :=
    wordRuns_flatten_of_ok _ (unitToken_map_ok (wordRuns_ok s.data))
  have h3 : unitToken ∘ unitToken = unitToken := funext unitToken_idem
  show (((wordRuns (String.mk (((wordRuns s.data).map unitToken).flatten)).data).map
      unitToken).flatten) = ((wordRuns s.data).map unitToken).flatten
  rw [show (String.mk (((wordRuns s.data).map unitToken).flatten)).data =
      ((wordRuns s.data).map unitToken).flatten from rfl]
  rw [h2, List.map_map, h3]

theorem mem_of_getLast?_char {α : Type} {l : List α} {x : α} (h : l.getLast? = some x) : x ∈ l := by
  rcases List.mem_getLast?_eq_getLast (Option.mem_def.mpr h) with ⟨hne, hx⟩
  rw [hx]
  exact List.getLast_mem hne

theorem flatten_head?_of_ne (ts : List (List Char)) (h : ∀ t ∈ ts, t ≠ []) :
    ts.flatten.head? = ts.head?.bind List.head? := by
  cases ts with
  | nil => rfl
  | cons t rest =>
    simp only [List.flatten_cons, List.head?_cons, Option.some_bind]
    cases ht : t with
    | nil => exact absurd ht (h t (List.mem_cons_self t rest))
    | cons x xs => simp

theorem flatten_getLast?_of_ne (ts : List (List Char)) (h : ∀ t ∈ ts, t ≠ []) :
    ts.flatten.getLast? = ts.getLast?.bind List.getLast? := by
  induction ts with
  | nil => rfl
  | cons t rest ih =>
    simp only [List.flatten_cons]
    cases rest with
    | nil => simp
    | cons r rs =>
      have hr : r ≠ [] := h r (List.mem_cons_of_mem t (List.mem_cons_self r rs))
      have hfl : (r :: rs).flatten ≠ [] := by
        simp only [List.flatten_cons]
        cases hr2 : r with
        | nil => exact absurd hr2 hr
        | cons x xs => simp
      rw [List.getLast?_append_of_ne_nil _ hfl,
        ih (fun x hx => h x (List.mem_cons_of_mem t hx)), List.getLast?_cons_cons]

theorem tokens_ne_nil {ts : List (List Char)} (h : ∀ t ∈ ts, IsWordTok t ∨ IsSepTok t) :
    ∀ t ∈ ts, t ≠ [] := by
  intro t ht
  rcases h t ht with hw | hs
  · exact hw.1
  · obtain ⟨c, hc, _⟩ := hs
    rw [hc]
    simp

theorem unitToken_ne_nil {t : List Char} (h : IsWordTok t ∨ IsSepTok t) :
    unitToken t ≠ [] := by
  rcases h with hw | hs
  · exact (unitToken_word hw).1
  · rw [unitToken_sep hs]
    obtain ⟨c, hc, _⟩ := hs
    rw [hc]
    simp

theorem word_tok_chars {t : List Char} (h : IsWordTok t) :
    ∀ c ∈ t, isWordChar c = true := by
  intro c hc
  exact List.all_eq_true.mp h.2 c hc

theorem units_mem {l : List Char} {c : Char}
    (h : c ∈ ((wordRuns l).map unitToken).flatten) :
    c ∈ l ∨ c ∈ (['f', 'e', 'e', 't'] : List Char) ∨ c ∈ (['t', 'o', 'n', 's'] : List Char) := by
  rcases List.mem_flatten.mp h with ⟨t, ht, hct⟩
  rcases List.mem_map.mp ht with ⟨t₀, ht₀, rfl⟩
  rcases unitToken_cases t₀ with he | he | he
  · rw [he] at hct
    left
    rw [← wordRuns_flatten_eq l]
    exact List.mem_flatten.mpr ⟨t₀, ht₀, hct⟩
  · rw [he] at hct
    exact Or.inr (Or.inl hct)
  · rw [he] at hct
    exact Or.inr (Or.inr hct)

theorem units_wsSpace {l : List Char} (hws : ∀ c ∈ l, pyIsWs c = true → c = ' ') :
    ∀ c ∈ ((wordRuns l).map unitToken).flatten, pyIsWs c = true → c = ' ' := by
  intro c hc hw
  rcases units_mem hc with h | h | h
  · exact hws c h hw
  · simp only [List.mem_cons, List.not_mem_nil, or_false] at h
    rcases h with h | h | h | h <;> subst h <;> exact absurd hw (by decide)
  · simp only [List.mem_cons, List.not_mem_nil, or_false] at h
    rcases h with h | h | h | h <;> subst h <;> exact absurd hw (by decide)

theorem units_keep {l : List Char} (hk : ∀ c ∈ l, punctKeep c = true) :
    ∀ c ∈ ((wordRuns l).map unitToken).flatten, punctKeep c = true := by
  intro c hc
  rcases units_mem hc with h | h | h
  · exact hk c h
  · simp only [List.mem_cons, List.not_mem_nil, or_false] at h
    rcases h with h | h | h | h <;> subst h <;> decide
  · simp only [List.mem_cons, List.not_mem_nil, or_false] at h
    rcases h with h | h | h | h <;> subst h <;> decide

theorem units_link_chain : ∀ ts : List (List Char),
    (∀ t ∈ ts, IsWordTok t ∨ IsSepTok t) →
    List.Chain'
      (fun t₁ t₂ => ∀ x ∈ t₁.getLast?, ∀ y ∈ t₂.head?, pyIsWs x = false ∨ pyIsWs y = false) ts →
    List.Chain'
      (fun t₁ t₂ => ∀ x ∈ t₁.getLast?, ∀ y ∈ t₂.head?, pyIsWs x = false ∨ pyIsWs y = false)
      (ts.map unitToken) := by
  intro ts
  induction ts with
  | nil => intro _ _; simp
  | cons t rest ih =>
    intro hmem hch
    simp only [List.map_cons]
    rw [List.chain'_cons']
    obtain ⟨hhead, htail⟩ := List.chain'_cons'.mp hch
    refine ⟨?_, ih (fun x hx => hmem x (List.mem_cons_of_mem t hx)) htail⟩
    intro t₂u hy x hx y hyy
    cases rest with
    | nil => simp at hy
    | cons t₂ r2 =>
      simp only [List.map_cons, List.head?_cons, Option.mem_def, Option.some.injEq] at hy
      subst hy
      rcases hmem t (List.mem_cons_self t (t₂ :: r2)) with hw | hs
      · left
        have hxm : x ∈ unitToken t := mem_of_getLast?_char (Option.mem_def.mp hx)
        exact word_char_not_ws (word_tok_chars (unitToken_word hw) x hxm)
      · rcases hmem t₂ (List.mem_cons_of_mem t (List.mem_cons_self t₂ r2)) with hw2 | hs2
        · right
          have hym : y ∈ unitToken t₂ := by
            have hth := Option.mem_def.mp hyy
            cases hu : unitToken t₂ with
            | nil => rw [hu] at hth; simp at hth
            | cons z zs =>
              rw [hu] at hth
              simp only [List.head?_cons, Option.some.injEq] at hth
              rw [← hth]
              exact List.mem_cons_self _ _
          exact word_char_not_ws (word_tok_chars (unitToken_word hw2) y hym)
        · rw [unitToken_sep hs] at hx
          rw [unitToken_sep hs2] at hyy
          exact hhead t₂ (by simp) x hx y hyy

theorem units_chain {l : List Char} (hch : NoWsRun l) :
    NoWsRun (((wordRuns l).map unitToken).flatten) := by
  unfold NoWsRun at *
  have hok := wordRuns_ok l
  have hne0 : [] ∉ wordRuns l := fun hm => (tokens_ne_nil hok.1 [] hm) rfl
  have hne : [] ∉ (wordRuns l).map unitToken := by
    intro hm
    rcases List.mem_map.mp hm with ⟨t₀, ht₀, he⟩
    exact (unitToken_ne_nil (hok.1 t₀ ht₀)) he
  have hdec := (List.chain'_flatten hne0).mp (by rw [wordRuns_flatten_eq l]; exact hch)
  rw [List.chain'_flatten hne]
  constructor
  · intro t ht
    rcases List.mem_map.mp ht with ⟨t₀, ht₀, rfl⟩
    rcases unitToken_cases t₀ with he | he | he
    · rw [he]
      exact hdec.1 t₀ ht₀
    · rw [he]
      simp [List.chain'_cons, List.chain'_singleton, pyIsWs]
    · rw [he]
      simp [List.chain'_cons, List.chain'_singleton, pyIsWs]
  · exact units_link_chain (wordRuns l) hok.1 hdec.2

theorem units_head {l : List Char} (hh : ∀ c, l.head? = some c → pyIsWs c = false) :
    ∀ c, (((wordRuns l).map unitToken).flatten).head? = some c → pyIsWs c = false := by
  intro c hc
  have hok := wordRuns_ok l
  have hnn : ∀ t ∈ (wordRuns l).map unitToken, t ≠ [] := by
    intro t ht
    rcases List.mem_map.mp ht with ⟨t₀, ht₀, rfl⟩
    exact unitToken_ne_nil (hok.1 t₀ ht₀)
  rw [flatten_head?_of_ne _ hnn] at hc
  cases hts : wordRuns l with
  | nil => rw [hts] at hc; simp at hc
  | cons t rest =>
    rw [hts] at hc
    simp only [List.map_cons, List.head?_cons, Option.some_bind] at hc
    have hmemt : IsWordTok t ∨ IsSepTok t := by
      have := hok.1
      rw [hts] at this
      exact this t (List.mem_cons_self t rest)
    rcases hmemt with hw | hs
    · have hcm : c ∈ unitToken t := by
        cases hu : unitToken t with
        | nil => rw [hu] at hc; simp at hc
        | cons z zs =>
          rw [hu] at hc
          simp only [List.head?_cons, Option.some.injEq] at hc
          rw [← hc]
          exact List.mem_cons_self _ _
      exact word_char_not_ws (word_tok_chars (unitToken_word hw) c hcm)
    · rw [unitToken_sep hs] at hc
      obtain ⟨d, hd, _⟩ := hs
      rw [hd] at hc
      simp only [List.head?_cons, Option.some.injEq] at hc
      subst hc
      apply hh
      rw [← wordRuns_flatten_eq l, hts, List.flatten_cons, hd]
      rfl

theorem units_last {l : List Char} (hl : ∀ c, l.getLast? = some c → pyIsWs c = false) :
    ∀ c, (((wordRuns l).map unitToken).flatten).getLast? = some c → pyIsWs c = false := by
  intro c hc
  have hok := wordRuns_ok l
  have hnn : ∀ t ∈ (wordRuns l).map unitToken, t ≠ [] := by
    intro t ht
    rcases List.mem_map.mp ht with ⟨t₀, ht₀, rfl⟩
    exact unitToken_ne_nil (hok.1 t₀ ht₀)
  rw [flatten_getLast?_of_ne _ hnn, List.getLast?_map] at hc
  cases hts : (wordRuns l).getLast? with
  | none => rw [hts] at hc; simp at hc
  | some t =>
    rw [hts] at hc
    simp only [Option.map_some', Option.some_bind] at hc
    have htm : t ∈ wordRuns l := mem_of_getLast?_char (α := List Char) hts
    rcases hok.1 t htm with hw | hs
    · have hcm : c ∈ unitToken t := mem_of_getLast?_char hc
      exact word_char_not_ws (word_tok_chars (unitToken_word hw) c hcm)
    · rw [unitToken_sep hs] at hc
      obtain ⟨d, hd, _⟩ := hs
      rw [hd] at hc
      simp only [List.getLast?_singleton, Option.some.injEq] at hc
      subst hc
      apply hl
      rw [← wordRuns_flatten_eq l, flatten_getLast?_of_ne _ (tokens_ne_nil hok.1), hts, hd]
      rfl

theorem string_ext {a b : String} (h : a.data = b.data) : a = b := by
  cases a
  cases b
  exact congrArg String.mk h

theorem clean_text_keep_eq {s : String} (h : ∀ c ∈ s.data, punctKeep c = true) :
    (clean_text s).data = pyStripList (collapseWs s.data false) := by
  show pyStripList (punctSub (collapseWs s.data false)) = _
  rw [punctSub_id (fun c hc => collapseWs_keep s.data h false c hc)]

/-- Claim C6 (amended).  The normalizer is not idempotent on arbitrary
strings (see the counterexample), but it is idempotent on every string all
of whose characters are kept by `clean_text` (word characters, whitespace,
hyphen, period) — i.e. whenever no character is replaced by a space:
`normalize (normalize s) = normalize s`. -/
theorem normalize_idempotent_on_kept (s : String)
    (h : ∀ c ∈ s.data, punctKeep c = true) :
    normalize (normalize s) = normalize s := by
  unfold normalize
  suffices hcl : clean_text (normalize_units (clean_text s)) = normalize_units (clean_text s) by
    rw [hcl]
    exact normalize_units_idem (clean_text s)
  have ht : (clean_text s).data = pyStripList (collapseWs s.data false) := clean_text_keep_eq h
  have htch : NoWsRun (clean_text s).data := by
    rw [ht]
    exact pyStripList_chain (collapseWs_chain s.data false)
  have htws : ∀ c ∈ (clean_text s).data, pyIsWs c = true → c = ' ' := by
    intro c hc hw
    rw [ht] at hc
    exact collapseWs_wsSpace s.data false c (pyStripList_subset hc) hw
  have htkeep : ∀ c ∈ (clean_text s).data, punctKeep c = true := by
    intro c hc
    rw [ht] at hc
    exact collapseWs_keep s.data h false c (pyStripList_subset hc)
  have hthead : ∀ c, (clean_text s).data.head? = some c → pyIsWs c = false := by
    intro c hc
    rw [ht] at hc
    exact pyStripList_head _ c hc
  have htlast : ∀ c, (clean_text s).data.getLast? = some c → pyIsWs c = false := by
    intro c hc
    rw [ht] at hc
    exact pyStripList_last _ c hc
  have hu : (normalize_units (clean_text s)).data =
      ((wordRuns (clean_text s).data).map unitToken).flatten := rfl
  have huch : NoWsRun (normalize_units (clean_text s)).data := by
    rw [hu]
    exact units_chain htch
  have huws : ∀ c ∈ (normalize_units (clean_text s)).data, pyIsWs c = true → c = ' ' := by
    rw [hu]
    exact units_wsSpace htws
  have hukeep : ∀ c ∈ (normalize_units (clean_text s)).data, punctKeep c = true := by
    rw [hu]
    exact units_keep htkeep
  have huhead : ∀ c, (normalize_units (clean_text s)).data.head? = some c → pyIsWs c = false := by
    rw [hu]
    exact units_head hthead
  have hulast : ∀ c, (normalize_units (clean_text s)).data.getLast? = some c →
      pyIsWs c = false := by
    rw [hu]
    exact units_last htlast
  apply string_ext
  show pyStripList (punctSub (collapseWs (normalize_units (clean_text s)).data false)) =
    (normalize_units (clean_text s)).data
  rw [collapseWs_fixed _ false huch huws (fun hfalse => nomatch hfalse)]
  rw [punctSub_id hukeep]
  exact pyStripList_eq_self _ huhead hulast

/-- Witness for the amended C6 at a concrete kept-characters string. -/
theorem normalize_idempotent_on_kept_witness :
    normalize (normalize "25 ft  open truck 8mt") = normalize "25 ft  open truck 8mt" :=
  normalize_idempotent_on_kept "25 ft  open truck 8mt" (by decide)

end TruckMatcher
